import Mathlib

/-!
Verification of the SuperVibing desktop backend (apps/desktop/src-tauri/src/lib.rs)
against its natural-language specification.

Strings manipulated by the Rust code are modelled as lists of characters
(`Str := List Char`); whitespace is the ASCII whitespace recognised by
`Char.isWhitespace`.  Byte lengths of UTF-8 strings are computed explicitly.
Stateful code (the automation job store, queue and worker) is modelled by
explicit state passing and a step relation; machine integers are `Nat`
(all the arithmetic involved stays far from any overflow boundary, and the
Rust code performs no wrapping arithmetic on these paths).
-/

namespace SuperVibing

/-- Character-list model of Rust string slices. -/
abbrev Str := List Char

/-! ### Rust string primitives (modelled) -/

/-- Model of Rust `str::trim_start` (ASCII whitespace). -/
def trimStart (s : Str) : Str := s.dropWhile Char.isWhitespace

/-- Model of Rust `str::trim_end` (ASCII whitespace). -/
def trimEnd (s : Str) : Str := (s.reverse.dropWhile Char.isWhitespace).reverse

/-- Model of Rust `str::trim` (ASCII whitespace). -/
def trim (s : Str) : Str := trimEnd (trimStart s)

/-- Model of Rust `str::strip_prefix`: remove `pre` from the front when present. -/
def stripPfx (pre s : Str) : Option Str :=
  if pre.isPrefixOf s then some (s.drop pre.length) else none

/-- Model of Rust `str::split_once`: split at the first occurrence of `sep`. -/
def splitOnce (sep : Str) : Str → Option (Str × Str)
  | [] => if sep.isPrefixOf ([] : Str) then some ([], []) else none
  | c :: rest =>
    if sep.isPrefixOf (c :: rest) then some ([], (c :: rest).drop sep.length)
    else (splitOnce sep rest).map fun p => (c :: p.1, p.2)

/-- Model of Rust `str::rsplit_once` with a single-character pattern:
split at the last occurrence of `c`. -/
def rsplitOnceChar (c : Char) : Str → Option (Str × Str)
  | [] => none
  | x :: xs =>
    match rsplitOnceChar c xs with
    | some (l, r) => some (x :: l, r)
    | none => if x = c then some ([], xs) else none

/-- Model of Rust `str::split` with a single-character pattern. -/
def splitChar (c : Char) : Str → List Str
  | [] => [[]]
  | x :: xs =>
    if x = c then [] :: splitChar c xs
    else
      match splitChar c xs with
      | h :: t => (x :: h) :: t
      | [] => [[x]]

/-- Model of Rust `str::trim_end_matches` with a single-character pattern. -/
def trimEndMatches (c : Char) (s : Str) : Str :=
  (s.reverse.dropWhile (· = c)).reverse

/-- ASCII lower-casing of one character, as Rust `u8::to_ascii_lowercase`. -/
def asciiLower (c : Char) : Char :=
  if 'A' ≤ c ∧ c ≤ 'Z' then Char.ofNat (c.toNat + 32) else c

/-- Model of Rust `str::eq_ignore_ascii_case`. -/
def eqIgnoreAsciiCase (a b : Str) : Bool :=
  a.map asciiLower = b.map asciiLower

/-- Numeric value of a digit string (no sign handling). -/
def digitsVal? (s : Str) : Option Nat :=
  if s = [] then none
  else if s.all Char.isDigit then
    some (s.foldl (fun acc c => acc * 10 + (c.toNat - 48)) 0)
  else none

/-- Model of Rust `str::parse` for an unsigned integer type whose maximum
value is `bound`: an optional leading `+`, then one or more ASCII digits,
rejecting overflow. -/
def parseUnsigned (bound : Nat) (s : Str) : Option Nat :=
  let core : Str := match s with
    | '+' :: rest => rest
    | _ => s
  match digitsVal? core with
  | some v => if v ≤ bound then some v else none
  | none => none

/-- Model of Rust `str::parse::<u32>` composed with `unwrap_or(0)` is built on this. -/
def parseU32 (s : Str) : Option Nat := parseUnsigned (2 ^ 32 - 1) s

/-- Model of Rust `str::parse::<u16>`. -/
def parseU16 (s : Str) : Option Nat := parseUnsigned (2 ^ 16 - 1) s

/-- UTF-8 encoded length of one character (Rust `char::len_utf8`). -/
def charUtf8Len (c : Char) : Nat :=
  if c.toNat < 0x80 then 1
  else if c.toNat < 0x800 then 2
  else if c.toNat < 0x10000 then 3
  else 4

/-- UTF-8 byte length of a string (Rust `str::len`). -/
def strByteLen (s : Str) : Nat := (s.map charUtf8Len).sum

/-! ### Constants from lib.rs -/

def AUTOMATION_DEFAULT_HOST : Str := "127.0.0.1".data
def AUTOMATION_DEFAULT_PORT : Nat := 47631
def AUTOMATION_FALLBACK_PORT_END : Nat := 47641
def AUTOMATION_QUEUE_MAX : Nat := 200
def AUTOMATION_COMPLETED_JOB_RETENTION_MAX : Nat := 500
def AUTOMATION_MAX_COMMAND_BYTES : Nat := 16 * 1024

/-! ### fallback_automation_bind_candidates (lib.rs lines 1024-1029) -/

/-- Embedding of `fallback_automation_bind_candidates`: the inclusive port
range `AUTOMATION_DEFAULT_PORT..=AUTOMATION_FALLBACK_PORT_END`, with the
preferred port filtered out, each formatted as `host:port`. -/
def fallback_automation_bind_candidates (host : String) (preferred_port : Nat) :
    List String :=
  ((List.range' AUTOMATION_DEFAULT_PORT
      (AUTOMATION_FALLBACK_PORT_END + 1 - AUTOMATION_DEFAULT_PORT)).filter
    (fun port => port ≠ preferred_port)).map
    (fun port => host ++ ":" ++ toString port)

/-- Modelled from the spec's words (for comparison with the code): the claim
reads the candidate list as the ports 47632 through 47641 inclusive with the
preferred port removed. -/
def claimedFallbackCandidates (host : String) (preferred_port : Nat) :
    List String :=
  ((List.range' 47632 10).filter (fun port => port ≠ preferred_port)).map
    (fun port => host ++ ":" ++ toString port)

/-! ### resolve_pane_term (lib.rs lines 3999-4009) -/

/-- Embedding of `resolve_pane_term`: trim the inherited TERM, fall back to
`xterm-256color` when it is absent, empty after trimming, or equal to `dumb`
ignoring ASCII case; otherwise return the trimmed value. -/
def resolve_pane_term (current : Option Str) : Str :=
  match (current.map trim).filter (fun value => !value.isEmpty) with
  | none => "xterm-256color".data
  | some value =>
    if eqIgnoreAsciiCase value "dumb".data then "xterm-256color".data
    else value

/-! ### parse_automation_bind / configured_automation_bind (lib.rs 974-1022) -/

/-- Embedding of `parse_automation_bind`. -/
def parse_automation_bind (value : Str) : Except String (Str × Nat) :=
  let value := trim value
  if value = [] then .error "bind value is empty"
  else
    match rsplitOnceChar ':' value with
    | none =>
      .error ("expected host:port, received `" ++ String.mk value ++ "`")
    | some (host, port) =>
      if host = [] then .error "bind host is empty"
      else if host ≠ "127.0.0.1".data ∧ host ≠ "localhost".data then
        .error ("bind host must be localhost-only (`127.0.0.1` or `localhost`), received `"
          ++ String.mk host ++ "`")
      else
        match parseU16 port with
        | none =>
          .error ("bind port must be a valid u16, received `" ++ String.mk port ++ "`")
        | some p =>
          if p = 0 then .error "bind port must be greater than 0"
          else .ok (host, p)

/-- Embedding of `configured_automation_bind`; the environment variable
`SUPERVIBING_AUTOMATION_BIND` is passed in explicitly as `envVar`
(`none` models an unset variable). -/
def configured_automation_bind (envVar : Option Str) : Str × Nat :=
  let configured := (envVar.map trim).filter (fun value => !value.isEmpty)
  match configured with
  | none => (AUTOMATION_DEFAULT_HOST, AUTOMATION_DEFAULT_PORT)
  | some c =>
    match parse_automation_bind c with
    | .ok parsed => parsed
    | .error _ => (AUTOMATION_DEFAULT_HOST, AUTOMATION_DEFAULT_PORT)

/-! ### Helper lemmas about the string primitives -/

theorem dropWhile_dropWhile (p : Char → Bool) (l : Str) :
    (l.dropWhile p).dropWhile p = l.dropWhile p := by
  induction l with
  | nil => rfl
  | cons c rest ih =>
    by_cases h : p c
    · simp [List.dropWhile_cons, h, ih]
    · simp [List.dropWhile_cons, h]

theorem trimStart_trimStart (s : Str) : trimStart (trimStart s) = trimStart s :=
  dropWhile_dropWhile _ s

theorem trimEnd_isPrefix (s : Str) : trimEnd s <+: s := by
  refine ⟨(s.reverse.takeWhile Char.isWhitespace).reverse, ?_⟩
  rw [trimEnd, ← List.reverse_append, List.takeWhile_append_dropWhile,
    List.reverse_reverse]

theorem trimStart_eq_self_of_prefix {s t : Str} (hp : t <+: s)
    (hs : trimStart s = s) : trimStart t = t := by
  obtain ⟨u, rfl⟩ := hp
  cases t with
  | nil => rfl
  | cons c rest =>
    rw [trimStart, List.dropWhile_cons]
    by_cases hw : Char.isWhitespace c
    · exfalso
      rw [trimStart, List.cons_append, List.dropWhile_cons, if_pos hw] at hs
      have hlen := congrArg List.length hs
      have hle := (List.dropWhile_sublist (l := rest ++ u)
        Char.isWhitespace).length_le
      simp at hlen hle
      omega
    · simp [hw]

theorem trim_trim (s : Str) : trim (trim s) = trim s := by
  have h1 : trimStart (trimEnd (trimStart s)) = trimEnd (trimStart s) :=
    trimStart_eq_self_of_prefix (trimEnd_isPrefix (trimStart s))
      (trimStart_trimStart s)
  rw [trim, trim, h1, trimEnd, trimEnd, List.reverse_reverse,
    dropWhile_dropWhile]

theorem trimStart_eq_nil_iff (s : Str) :
    trimStart s = [] ↔ ∀ c ∈ s, c.isWhitespace := List.dropWhile_eq_nil_iff

theorem trim_eq_nil_iff (s : Str) :
    trim s = [] ↔ ∀ c ∈ s, c.isWhitespace := by
  constructor
  · intro h c hc
    rw [trim, trimEnd] at h
    have h' : (trimStart s).reverse.dropWhile Char.isWhitespace = [] := by
      cases he : (trimStart s).reverse.dropWhile Char.isWhitespace with
      | nil => rfl
      | cons a l => rw [he] at h; simp at h
    rw [List.dropWhile_eq_nil_iff] at h'
    rw [← List.takeWhile_append_dropWhile (p := Char.isWhitespace) (l := s)]
      at hc
    rcases List.mem_append.mp hc with hmem | hmem
    · exact List.mem_takeWhile_imp hmem
    · exact h' c (by simpa using hmem)
  · intro h
    have : trimStart s = [] := (trimStart_eq_nil_iff s).mpr h
    rw [trim, this]
    rfl

/-! ### Claim C6: fallback bind candidates -/

/-- C6 counterexample: for preferred port 47632 the code's candidate list
starts at port 47631 (the inclusive range is 47631..=47641), so it differs
from the claimed list of ports 47632..=47641 with the preferred port
removed. -/
theorem fallback_candidates_counterexample :
    fallback_automation_bind_candidates "127.0.0.1" 47632 ≠
      claimedFallbackCandidates "127.0.0.1" 47632 := by decide

/-- C6 (amended): for every preferred port P, the fallback bind candidate
list built for P is exactly the ports 47631 through 47641 inclusive with P
removed, in ascending numerical order, each formatted as host:port. -/
theorem fallback_automation_bind_candidates_spec (host : String)
    (preferred_port : Nat) :
    ∃ ports : List Nat,
      fallback_automation_bind_candidates host preferred_port =
        ports.map (fun port => host ++ ":" ++ toString port) ∧
      (∀ q, q ∈ ports ↔ (47631 ≤ q ∧ q ≤ 47641 ∧ q ≠ preferred_port)) ∧
      ports.Pairwise (· < ·) := by
  refine ⟨(List.range' 47631 11).filter (fun port => port ≠ preferred_port),
    rfl, ?_, ?_⟩
  · intro q
    simp only [List.mem_filter, List.mem_range', decide_eq_true_eq]
    constructor
    · rintro ⟨⟨i, hi, rfl⟩, h2⟩
      omega
    · rintro ⟨h1, h2, h3⟩
      exact ⟨⟨q - 47631, by omega, by omega⟩, h3⟩
  · exact List.Pairwise.sublist (List.filter_sublist _)
      (List.pairwise_lt_range' _ _)

/-! ### Claim C7: TERM resolution -/

/-- C7 counterexample: the inherited TERM value " xterm " is neither absent,
empty, all whitespace, nor "dumb", yet `resolve_pane_term` does not preserve
it verbatim: it returns the trimmed value "xterm". -/
theorem resolve_pane_term_counterexample :
    trim " xterm ".data ≠ [] ∧
    eqIgnoreAsciiCase (trim " xterm ".data) "dumb".data = false ∧
    resolve_pane_term (some " xterm ".data) ≠ " xterm ".data := by decide

/-- C7 (amended): the TERM resolved for a spawned pane is "xterm-256color"
when the inherited value is absent, all whitespace (this includes empty), or
equal to "dumb" ignoring case after trimming; otherwise it is the inherited
value with surrounding whitespace trimmed. -/
theorem resolve_pane_term_spec :
    resolve_pane_term none = "xterm-256color".data ∧
    (∀ s : Str, (∀ c ∈ s, c.isWhitespace = true) →
      resolve_pane_term (some s) = "xterm-256color".data) ∧
    (∀ s : Str, eqIgnoreAsciiCase (trim s) "dumb".data = true →
      resolve_pane_term (some s) = "xterm-256color".data) ∧
    (∀ s : Str, trim s ≠ [] → eqIgnoreAsciiCase (trim s) "dumb".data = false →
      resolve_pane_term (some s) = trim s) := by
  refine ⟨rfl, ?_, ?_, ?_⟩
  · intro s hws
    have h : trim s = [] := (trim_eq_nil_iff s).mpr hws
    simp [resolve_pane_term, Option.filter, h]
  · intro s heq
    have hne : ¬ trim s = [] := by
      intro h
      rw [h] at heq
      simp [eqIgnoreAsciiCase] at heq
    simp [resolve_pane_term, Option.filter, List.isEmpty_iff, hne, heq]
  · intro s hne heq
    simp [resolve_pane_term, Option.filter, List.isEmpty_iff, hne, heq]

/-- Witness for C7: the theorem applied to the concrete TERM values
" xterm " (preserved modulo trimming) and "dumb". -/
theorem resolve_pane_term_spec_witness :
    resolve_pane_term (some " xterm ".data) = trim " xterm ".data ∧
    resolve_pane_term (some "dumb".data) = "xterm-256color".data :=
  ⟨resolve_pane_term_spec.2.2.2 " xterm ".data (by decide) (by decide),
   resolve_pane_term_spec.2.2.1 "dumb".data (by decide)⟩

/-! ### Claim C9: invalid bind configuration falls back silently -/

/-- C9: every SUPERVIBING_AUTOMATION_BIND value that fails to parse makes
`configured_automation_bind` return the default bind ("127.0.0.1", 47631)
instead of failing or aborting startup. -/
theorem configured_automation_bind_fallback (v : Str) (e : String)
    (h : parse_automation_bind v = .error e) :
    configured_automation_bind (some v) =
      (AUTOMATION_DEFAULT_HOST, AUTOMATION_DEFAULT_PORT) := by
  unfold configured_automation_bind
  by_cases hnil : trim v = []
  · simp [Option.filter, List.isEmpty_iff, hnil]
  · have hparse : parse_automation_bind (trim v) = .error e := by
      unfold parse_automation_bind at h ⊢
      rw [trim_trim]
      exact h
    simp [Option.filter, List.isEmpty_iff, hnil, hparse]

/-- Witness for C9: the unparseable value "nonsense" (no colon) resolves to
the default bind. -/
theorem configured_automation_bind_fallback_witness :
    parse_automation_bind "nonsense".data =
      .error "expected host:port, received `nonsense`" ∧
    configured_automation_bind (some "nonsense".data) =
      (AUTOMATION_DEFAULT_HOST, AUTOMATION_DEFAULT_PORT) :=
  ⟨by rfl, configured_automation_bind_fallback "nonsense".data
    "expected host:port, received `nonsense`" (by rfl)⟩

/-! ### Automation data model (lib.rs 109-273)

The process-wide `AutomationState` holds its maps behind locks; the
embedding passes the map contents explicitly (the code never proceeds with
a poisoned lock, so lock acquisition is not modelled).  A `HashMap` is
modelled as an association list with unique keys: `mapInsert`, `mapRemove`
and `mapLookup` mirror `HashMap::insert`, `HashMap::remove` and
`HashMap::get`. -/

inductive AutomationJobStatus
  | Queued
  | Running
  | Succeeded
  | Failed
deriving DecidableEq, Repr

inductive WorktreeCreateMode
  | NewBranch
  | ExistingBranch
deriving DecidableEq, Repr

/-- Opaque JSON payloads (serde_json::Value) are modelled as strings. -/
abbrev JsonValue := String

inductive ExternalCommandRequest
  | CreatePanes (workspace_id : Str) (pane_count : Nat)
  | CreateWorktree (workspace_id : Str) (mode : WorktreeCreateMode)
      (branch : Str) (base_ref : Option Str) (open_after_create : Option Bool)
  | CreateBranch (workspace_id : Str) (branch : Str) (base_ref : Option Str)
      (checkout : Option Bool)
  | RunCommand (workspace_id : Str) (command : Str) (execute : Option Bool)
deriving DecidableEq, Repr

structure AutomationWorkspaceSnapshot where
  workspace_id : Str
  name : Str
  repo_root : Str
  worktree_path : Str
  runtime_pane_ids : List Str
deriving DecidableEq, Repr

structure AutomationJobRecord where
  job_id : Str
  status : AutomationJobStatus
  request : ExternalCommandRequest
  result : Option JsonValue
  error : Option Str
  created_at_ms : Nat
  started_at_ms : Option Nat
  finished_at_ms : Option Nat
deriving DecidableEq, Repr

/-- The job store `AutomationState.jobs` (a `HashMap` keyed by job id). -/
abbrev JobStore := List (Str × AutomationJobRecord)

/-- The workspace registry `AutomationState.workspace_registry`. -/
abbrev WorkspaceRegistry := List (Str × AutomationWorkspaceSnapshot)

def mapLookup {β : Type} (m : List (Str × β)) (k : Str) : Option β :=
  match m with
  | [] => none
  | (k', v) :: rest => if k' = k then some v else mapLookup rest k

def mapInsert {β : Type} (m : List (Str × β)) (k : Str) (v : β) :
    List (Str × β) :=
  match m with
  | [] => [(k, v)]
  | (k', v') :: rest =>
    if k' = k then (k, v) :: rest else (k', v') :: mapInsert rest k v

def mapRemove {β : Type} (m : List (Str × β)) (k : Str) : List (Str × β) :=
  match m with
  | [] => []
  | (k', v') :: rest =>
    if k' = k then rest else (k', v') :: mapRemove rest k

/-- Matches `matches!(status, Succeeded | Failed)` in the Rust code. -/
def isTerminalStatus : AutomationJobStatus → Bool
  | .Succeeded => true
  | .Failed => true
  | _ => false

/-- Pure fragment of `AutomationState`: the job store, the workspace
registry, the `queued_jobs` depth counter, and the contents of the unbounded
channel Q (`queue_tx`/worker receiver). -/
structure AutomationStateModel where
  jobs : JobStore
  workspace_registry : WorkspaceRegistry
  queued_jobs : Nat
  queue : List (Str × ExternalCommandRequest)
deriving DecidableEq, Repr

structure HttpError where
  status_code : Nat
  message : String
deriving DecidableEq, Repr

structure SubmitCommandResponse where
  job_id : Str
  status : AutomationJobStatus
deriving DecidableEq, Repr

/-! ### Association-map lemmas -/

theorem mapLookup_nil {β : Type} (k : Str) :
    mapLookup ([] : List (Str × β)) k = none := rfl

theorem mapLookup_cons {β : Type} (k' : Str) (v : β) (rest : List (Str × β))
    (k : Str) :
    mapLookup ((k', v) :: rest) k =
      if k' = k then some v else mapLookup rest k := rfl

theorem mapInsert_nil {β : Type} (k : Str) (v : β) :
    mapInsert ([] : List (Str × β)) k v = [(k, v)] := rfl

theorem mapInsert_cons {β : Type} (k' : Str) (v' : β) (rest : List (Str × β))
    (k : Str) (v : β) :
    mapInsert ((k', v') :: rest) k v =
      if k' = k then (k, v) :: rest else (k', v') :: mapInsert rest k v := rfl

theorem mapRemove_nil {β : Type} (k : Str) :
    mapRemove ([] : List (Str × β)) k = [] := rfl

theorem mapRemove_cons {β : Type} (k' : Str) (v' : β) (rest : List (Str × β))
    (k : Str) :
    mapRemove ((k', v') :: rest) k =
      if k' = k then rest else (k', v') :: mapRemove rest k := rfl

theorem mapLookup_eq_none_iff {β : Type} (m : List (Str × β)) (k : Str) :
    mapLookup m k = none ↔ ∀ p ∈ m, p.1 ≠ k := by
  induction m with
  | nil => simp [mapLookup_nil]
  | cons hd tl ih =>
    obtain ⟨k', v⟩ := hd
    rw [mapLookup_cons]
    by_cases h : k' = k
    · rw [if_pos h]
      constructor
      · intro hsome
        exact absurd hsome (by simp)
      · intro hall
        exact absurd h (hall (k', v) (List.mem_cons_self _ _))
    · rw [if_neg h, ih]
      constructor
      · intro hall p hp
        rcases List.mem_cons.mp hp with rfl | hp
        · exact h
        · exact hall p hp
      · intro hall p hp
        exact hall p (List.mem_cons_of_mem _ hp)

theorem mapLookup_mapInsert_self {β : Type} (m : List (Str × β)) (k : Str)
    (v : β) : mapLookup (mapInsert m k v) k = some v := by
  induction m with
  | nil => simp [mapInsert_nil, mapLookup_cons]
  | cons hd tl ih =>
    obtain ⟨k', v'⟩ := hd
    by_cases h : k' = k
    · simp [mapInsert_cons, mapLookup_cons, h]
    · simp [mapInsert_cons, mapLookup_cons, h, ih]

theorem mapLookup_mapInsert_ne {β : Type} (m : List (Str × β)) (k j : Str)
    (v : β) (hne : j ≠ k) :
    mapLookup (mapInsert m k v) j = mapLookup m j := by
  have hkj : k ≠ j := fun h => hne h.symm
  induction m with
  | nil => simp [mapInsert_nil, mapLookup_cons, mapLookup_nil, hkj]
  | cons hd tl ih =>
    obtain ⟨k', v'⟩ := hd
    by_cases h : k' = k
    · subst h
      simp [mapInsert_cons, mapLookup_cons, hkj]
    · simp [mapInsert_cons, mapLookup_cons, h, ih]

theorem mapRemove_mapInsert_fresh {β : Type} (m : List (Str × β)) (k : Str)
    (v : β) (hfresh : mapLookup m k = none) :
    mapRemove (mapInsert m k v) k = m := by
  induction m with
  | nil => simp [mapInsert_nil, mapRemove_cons, mapRemove_nil]
  | cons hd tl ih =>
    obtain ⟨k', v'⟩ := hd
    rw [mapLookup_cons] at hfresh
    by_cases h : k' = k
    · rw [if_pos h] at hfresh
      exact absurd hfresh (by simp)
    · rw [if_neg h] at hfresh
      simp [mapInsert_cons, mapRemove_cons, h, ih hfresh]

/-! ### queue_automation_job (lib.rs 1195-1244)

The fresh UUID v4 job id and the current wall-clock time are passed in as
parameters; `sendOk` tells whether `queue_tx.send` succeeds (an unbounded
channel send fails only when the worker side is gone). -/

def queue_automation_job (st : AutomationStateModel)
    (request : ExternalCommandRequest) (job_id : Str) (now : Nat)
    (sendOk : Bool) :
    AutomationStateModel × Except HttpError SubmitCommandResponse :=
  if st.queued_jobs ≥ AUTOMATION_QUEUE_MAX then
    (st, .error ⟨429, "automation queue is full"⟩)
  else
    let job : AutomationJobRecord :=
      { job_id := job_id, status := .Queued, request := request,
        result := none, error := none, created_at_ms := now,
        started_at_ms := none, finished_at_ms := none }
    let st1 := { st with jobs := mapInsert st.jobs job_id job,
                         queued_jobs := st.queued_jobs + 1 }
    if sendOk then
      ({ st1 with queue := st1.queue ++ [(job_id, request)] },
       .ok { job_id := job_id, status := .Queued })
    else
      ({ st1 with queued_jobs := st1.queued_jobs - 1,
                  jobs := mapRemove st1.jobs job_id },
       .error ⟨500, "failed to enqueue automation job: channel closed"⟩)

/-! ### Claim C4: enqueue capacity check and rollback -/

/-- C4: with the queue depth counter at or above 200 the request is rejected
with 429 and the whole state (job store included) is untouched; below the
cap and with a successful send, the job is recorded as Queued with
created_at_ms = now, the counter is incremented and the job enters the
queue, leaving every other job unchanged; below the cap with a failed send,
the state is fully restored and the response is 500. -/
theorem queue_automation_job_spec (st : AutomationStateModel)
    (request : ExternalCommandRequest) (job_id : Str) (now : Nat)
    (hfresh : mapLookup st.jobs job_id = none) :
    (AUTOMATION_QUEUE_MAX ≤ st.queued_jobs → ∀ sendOk,
      queue_automation_job st request job_id now sendOk =
        (st, .error ⟨429, "automation queue is full"⟩)) ∧
    (st.queued_jobs < AUTOMATION_QUEUE_MAX →
      (queue_automation_job st request job_id now true).2 =
        .ok { job_id := job_id, status := .Queued } ∧
      mapLookup (queue_automation_job st request job_id now true).1.jobs
          job_id =
        some { job_id := job_id, status := .Queued, request := request,
               result := none, error := none, created_at_ms := now,
               started_at_ms := none, finished_at_ms := none } ∧
      (∀ k, k ≠ job_id →
        mapLookup (queue_automation_job st request job_id now true).1.jobs k =
          mapLookup st.jobs k) ∧
      (queue_automation_job st request job_id now true).1.queued_jobs =
        st.queued_jobs + 1 ∧
      (queue_automation_job st request job_id now true).1.queue =
        st.queue ++ [(job_id, request)]) ∧
    (st.queued_jobs < AUTOMATION_QUEUE_MAX →
      queue_automation_job st request job_id now false =
        (st, .error
          ⟨500, "failed to enqueue automation job: channel closed"⟩)) := by
  refine ⟨?_, ?_, ?_⟩
  · intro hge sendOk
    simp [queue_automation_job, hge]
  · intro hlt
    have hnot : ¬ st.queued_jobs ≥ AUTOMATION_QUEUE_MAX := by omega
    refine ⟨?_, ?_, ?_, ?_, ?_⟩
    · simp [queue_automation_job, hnot]
    · simp [queue_automation_job, hnot, mapLookup_mapInsert_self]
    · intro k hk
      simp only [queue_automation_job, hnot, if_false]
      simp only [ge_iff_le, hnot, if_false, if_true]
      exact mapLookup_mapInsert_ne _ _ _ _ hk
    · simp [queue_automation_job, hnot]
    · simp [queue_automation_job, hnot]
  · intro hlt
    have hnot : ¬ st.queued_jobs ≥ AUTOMATION_QUEUE_MAX := by omega
    simp [queue_automation_job, hnot,
      mapRemove_mapInsert_fresh st.jobs job_id _ hfresh]

/-- Witness for C4: a concrete empty state accepts a job and rolls back a
failed send. -/
theorem queue_automation_job_spec_witness :
    (queue_automation_job
        ⟨[], [], 0, []⟩ (.CreatePanes "w1".data 2) "job-1".data 5 true).2 =
      .ok { job_id := "job-1".data, status := .Queued } ∧
    queue_automation_job
        ⟨[], [], 0, []⟩ (.CreatePanes "w1".data 2) "job-1".data 5 false =
      (⟨[], [], 0, []⟩,
       .error ⟨500, "failed to enqueue automation job: channel closed"⟩) :=
  ⟨((queue_automation_job_spec ⟨[], [], 0, []⟩ (.CreatePanes "w1".data 2)
      "job-1".data 5 (by rfl)).2.1 (by decide)).1,
   (queue_automation_job_spec ⟨[], [], 0, []⟩ (.CreatePanes "w1".data 2)
      "job-1".data 5 (by rfl)).2.2 (by decide)⟩

/-! ### prune_completed_jobs_with_limit (lib.rs 1257-1293) -/

/-- Effective retention timestamp of a job:
`job.finished_at_ms.unwrap_or(job.created_at_ms)`. -/
def pruneKey (job : AutomationJobRecord) : Nat :=
  job.finished_at_ms.getD job.created_at_ms

/-- Ordering used by `completed.sort_by_key(|(_, finished_at)| *finished_at)`. -/
def pruneLe (a b : Str × Nat) : Prop := a.2 ≤ b.2

instance : DecidableRel pruneLe := fun a b => Nat.decLe a.2 b.2

instance : IsTotal (Str × Nat) pruneLe := ⟨fun a b => Nat.le_total a.2 b.2⟩

instance : IsTrans (Str × Nat) pruneLe := ⟨fun _ _ _ => Nat.le_trans⟩

/-- Embedding of `prune_completed_jobs_with_limit`: collect the
(job id, timestamp) pairs of terminal-status jobs; when more than `limit`
of them exist, sort them by timestamp (Rust's stable `sort_by_key` is
modelled by the stable insertion sort) and remove the first
`len - limit` ids from the store. -/
def prune_completed_jobs_with_limit (jobs : JobStore) (limit : Nat) :
    JobStore :=
  let completed := (jobs.filter fun p => isTerminalStatus p.2.status).map
    fun p => (p.1, pruneKey p.2)
  if completed.length ≤ limit then jobs
  else
    let sorted := completed.insertionSort pruneLe
    let remove_count := completed.length - limit
    let removeIds := (sorted.take remove_count).map Prod.fst
    removeIds.foldl (fun acc job_id => mapRemove acc job_id) jobs

/-- Embedding of `prune_completed_jobs` (retention cap 500). -/
def prune_completed_jobs (jobs : JobStore) : JobStore :=
  prune_completed_jobs_with_limit jobs AUTOMATION_COMPLETED_JOB_RETENTION_MAX

/-- Number of terminal-state jobs in a store. -/
def terminalCount (jobs : JobStore) : Nat :=
  (jobs.filter fun p => isTerminalStatus p.2.status).length

/-! ### Removal lemmas -/

theorem mapRemove_eq_filter {β : Type} (m : List (Str × β)) (k : Str)
    (h : (m.map Prod.fst).Nodup) :
    mapRemove m k = m.filter fun p => decide (p.1 ≠ k) := by
  induction m with
  | nil => simp [mapRemove_nil]
  | cons hd tl ih =>
    obtain ⟨k', v'⟩ := hd
    simp only [List.map_cons, List.nodup_cons] at h
    rw [mapRemove_cons]
    by_cases hk : k' = k
    · subst hk
      have hflt : tl.filter (fun p => decide (p.1 ≠ k')) = tl := by
        rw [List.filter_eq_self]
        intro p hp
        exact decide_eq_true
          (fun hcontra => h.1 (hcontra ▸ List.mem_map_of_mem Prod.fst hp))
      rw [if_pos rfl, List.filter_cons]
      simp only [decide_not] at hflt
      simp [hflt]
    · rw [if_neg hk, ih h.2]
      simp [hk]

theorem foldl_mapRemove_eq_filter {β : Type} (ids : List Str)
    (m : List (Str × β)) (h : (m.map Prod.fst).Nodup) :
    ids.foldl (fun acc job_id => mapRemove acc job_id) m =
      m.filter fun p => decide (p.1 ∉ ids) := by
  induction ids generalizing m with
  | nil => simp
  | cons i ids ih =>
    have hstep : mapRemove m i = m.filter fun p => decide (p.1 ≠ i) :=
      mapRemove_eq_filter m i h
    have hnodup : ((m.filter fun p => decide (p.1 ≠ i)).map Prod.fst).Nodup :=
      ((List.filter_sublist m).map Prod.fst).nodup h
    rw [List.foldl_cons, hstep, ih _ hnodup, List.filter_filter]
    apply List.filter_congr
    intro p _
    simp only [List.mem_cons, not_or]
    rw [Bool.decide_and, Bool.and_comm]

theorem prune_eq_of_le (jobs : JobStore) (limit : Nat)
    (hle : terminalCount jobs ≤ limit) :
    prune_completed_jobs_with_limit jobs limit = jobs := by
  simp only [prune_completed_jobs_with_limit]
  rw [if_pos]
  rw [List.length_map]
  exact hle

theorem prune_eq_foldl (jobs : JobStore) (limit : Nat)
    (hgt : limit < terminalCount jobs) :
    prune_completed_jobs_with_limit jobs limit =
      (((((jobs.filter fun p => isTerminalStatus p.2.status).map
            fun p => (p.1, pruneKey p.2)).insertionSort pruneLe).take
          (((jobs.filter fun p => isTerminalStatus p.2.status).map
            fun p => (p.1, pruneKey p.2)).length - limit)).map
        Prod.fst).foldl (fun acc job_id => mapRemove acc job_id) jobs := by
  simp only [prune_completed_jobs_with_limit]
  rw [if_neg]
  rw [List.length_map]
  simp only [terminalCount] at hgt
  omega

/-- Full characterisation of retention pruning at an arbitrary limit, used
both for the retention claim (at limit 500) and by the lifecycle invariant:
(1) no removal at or below the limit; (2) exactly `limit` terminal jobs
remain when the limit was exceeded; (3) non-terminal jobs always survive;
(4) only terminal jobs are removed; (5) every removed job is at least as
old (by finished-or-created timestamp) as every surviving terminal job. -/
theorem prune_general (jobs : JobStore) (limit : Nat)
    (h : (jobs.map Prod.fst).Nodup) :
    (terminalCount jobs ≤ limit →
      prune_completed_jobs_with_limit jobs limit = jobs) ∧
    (limit < terminalCount jobs →
      terminalCount (prune_completed_jobs_with_limit jobs limit) = limit) ∧
    (∀ p ∈ jobs, isTerminalStatus p.2.status = false →
      p ∈ prune_completed_jobs_with_limit jobs limit) ∧
    (∀ p ∈ jobs, p ∉ prune_completed_jobs_with_limit jobs limit →
      isTerminalStatus p.2.status = true) ∧
    (∀ p q, p ∈ jobs → p ∉ prune_completed_jobs_with_limit jobs limit →
      q ∈ prune_completed_jobs_with_limit jobs limit →
      isTerminalStatus q.2.status = true → pruneKey p.2 ≤ pruneKey q.2) := by
  by_cases hle : terminalCount jobs ≤ limit
  · have heq := prune_eq_of_le jobs limit hle
    refine ⟨fun _ => heq, fun hgt => absurd hgt (by omega), ?_, ?_, ?_⟩
    · intro p hp _
      rw [heq]
      exact hp
    · intro p hp hnp
      rw [heq] at hnp
      exact absurd hp hnp
    · intro p q hp hnp _ _
      rw [heq] at hnp
      exact absurd hp hnp
  · have hgt : limit < terminalCount jobs := by omega
    set C := jobs.filter fun p => isTerminalStatus p.2.status with hC
    set completed := C.map (fun p => (p.1, pruneKey p.2)) with hcompl
    set sorted := completed.insertionSort pruneLe with hsorted
    set rc := completed.length - limit with hrc
    set ids := (sorted.take rc).map Prod.fst with hids
    have hprune : prune_completed_jobs_with_limit jobs limit =
        jobs.filter fun p => decide (p.1 ∉ ids) := by
      rw [prune_eq_foldl jobs limit hgt]
      exact foldl_mapRemove_eq_filter _ _ h
    have hlenC : completed.length = terminalCount jobs := by
      rw [hcompl, List.length_map]
      rfl
    have hperm : sorted.Perm completed := List.perm_insertionSort _ _
    have hmapfst : completed.map Prod.fst = C.map Prod.fst := by
      rw [hcompl, List.map_map]
      rfl
    have hCnodup : (C.map Prod.fst).Nodup :=
      ((List.filter_sublist jobs).map Prod.fst).nodup h
    have hcomplNodup : (completed.map Prod.fst).Nodup := by
      rw [hmapfst]
      exact hCnodup
    have hsortNodup : (sorted.map Prod.fst).Nodup :=
      (hperm.symm.map Prod.fst).nodup hcomplNodup
    have hidsNodup : ids.Nodup := by
      rw [hids, List.map_take]
      exact (List.take_sublist _ _).nodup hsortNodup
    have hidsSub : ∀ x ∈ ids, x ∈ C.map Prod.fst := by
      intro x hx
      rw [hids, List.map_take] at hx
      have hx' : x ∈ sorted.map Prod.fst := List.take_subset _ _ hx
      rw [← hmapfst]
      exact ((hperm.map Prod.fst).mem_iff).mp hx'
    have hrcle : rc ≤ sorted.length := by
      rw [hperm.length_eq]
      omega
    have hidslen : ids.length = rc := by
      rw [hids, List.length_map, List.length_take]
      omega
    have hmemPrune : ∀ p, p ∈ prune_completed_jobs_with_limit jobs limit ↔
        (p ∈ jobs ∧ p.1 ∉ ids) := by
      intro p
      rw [hprune]
      simp [List.mem_filter]
    have hIdsC : ∀ p ∈ jobs, p.1 ∈ ids → p ∈ C := by
      intro p hp hin
      obtain ⟨c, hc, hcfst⟩ := List.mem_map.mp (hidsSub p.1 hin)
      have hcjobs : c ∈ jobs := List.mem_of_mem_filter hc
      have : c = p := List.inj_on_of_nodup_map h hcjobs hp hcfst
      exact this ▸ hc
    refine ⟨fun hle2 => absurd hle2 hle, fun _ => ?_, ?_, ?_, ?_⟩
    · -- exactly `limit` terminal jobs remain
      have hfiltComm :
          (prune_completed_jobs_with_limit jobs limit).filter
              (fun p => isTerminalStatus p.2.status) =
            C.filter fun p => decide (p.1 ∉ ids) := by
        rw [hprune, hC, List.filter_filter, List.filter_filter]
        apply List.filter_congr
        intro p _
        rw [Bool.and_comm]
      have hpermIds :
          ((C.filter fun p => decide (p.1 ∈ ids)).map Prod.fst).Perm ids := by
        apply (List.perm_ext_iff_of_nodup
          (((List.filter_sublist C).map Prod.fst).nodup hCnodup)
          hidsNodup).mpr
        intro x
        constructor
        · intro hx
          obtain ⟨p, hpmem, rfl⟩ := List.mem_map.mp hx
          exact of_decide_eq_true (List.mem_filter.mp hpmem).2
        · intro hx
          obtain ⟨c, hc, rfl⟩ := List.mem_map.mp (hidsSub x hx)
          exact List.mem_map_of_mem Prod.fst
            (List.mem_filter.mpr ⟨hc, decide_eq_true hx⟩)
      have hlen1 : (C.filter fun p => decide (p.1 ∈ ids)).length = rc := by
        have hlp := hpermIds.length_eq
        rw [List.length_map] at hlp
        rw [hlp, hidslen]
      have hsplit := List.length_eq_length_filter_add
        (l := C) fun p => decide (p.1 ∈ ids)
      have hfilteq : (C.filter fun p => decide (p.1 ∉ ids)) =
          C.filter fun p => !decide (p.1 ∈ ids) := by
        apply List.filter_congr
        intro p _
        simp [decide_not]
      have hClen : C.length = terminalCount jobs := rfl
      simp only [terminalCount, hfiltComm, hfilteq]
      rw [hsplit] at hClen
      rw [hlen1] at hClen
      simp only [terminalCount] at hgt
      have : C.length = terminalCount jobs := rfl
      simp only [terminalCount] at this
      omega
    · -- non-terminal jobs are never pruned
      intro p hp hterm
      rw [hmemPrune]
      refine ⟨hp, fun hin => ?_⟩
      have hpC := hIdsC p hp hin
      have := List.of_mem_filter hpC
      rw [hterm] at this
      exact absurd this (by simp)
    · -- only terminal jobs are removed
      intro p hp hnp
      rw [hmemPrune, not_and, not_not] at hnp
      have hpC := hIdsC p hp (hnp hp)
      have hpC' : p ∈ jobs.filter (fun r => isTerminalStatus r.2.status) := by
        rw [← hC]
        exact hpC
      exact (List.mem_filter.mp hpC').2
    · -- removed jobs are the oldest
      intro p q hp hnp hq hqterm
      rw [hmemPrune, not_and, not_not] at hnp
      have hpin : p.1 ∈ ids := hnp hp
      have hpC : p ∈ C := hIdsC p hp hpin
      have hkeyP : (p.1, pruneKey p.2) ∈ completed :=
        hcompl ▸ List.mem_map_of_mem _ hpC
      have hkeyPsorted : (p.1, pruneKey p.2) ∈ sorted :=
        hperm.mem_iff.mpr hkeyP
      obtain ⟨a, ha, hafst⟩ := List.mem_map.mp (hids ▸ hpin)
      have haSorted : a ∈ sorted := List.take_subset _ _ ha
      have haeq : a = (p.1, pruneKey p.2) :=
        List.inj_on_of_nodup_map hsortNodup haSorted hkeyPsorted
          (by rw [hafst])
      have hqmem := (hmemPrune q).mp hq
      have hqC : q ∈ C := List.mem_filter.mpr ⟨hqmem.1, by simp [hqterm]⟩
      have hkeyQsorted : (q.1, pruneKey q.2) ∈ sorted :=
        hperm.mem_iff.mpr (hcompl ▸ List.mem_map_of_mem _ hqC)
      have hqdrop : (q.1, pruneKey q.2) ∈ sorted.drop rc := by
        have hsplitq := hkeyQsorted
        rw [← List.take_append_drop rc sorted] at hsplitq
        rcases List.mem_append.mp hsplitq with htake | hdrop
        · exact absurd (hids ▸ List.mem_map_of_mem Prod.fst htake)
            hqmem.2
        · exact hdrop
      have hpairwise : List.Pairwise pruneLe sorted :=
        List.sorted_insertionSort pruneLe completed
      have hpw := (List.pairwise_append.mp
        (by rw [List.take_append_drop rc sorted]; exact hpairwise)).2.2
      have hle := hpw _ (haeq ▸ ha) _ hqdrop
      exact hle

theorem mapRemove_sublist {β : Type} (m : List (Str × β)) (k : Str) :
    (mapRemove m k).Sublist m := by
  induction m with
  | nil => simp [mapRemove_nil]
  | cons hd tl ih =>
    obtain ⟨k', v'⟩ := hd
    rw [mapRemove_cons]
    by_cases h : k' = k
    · rw [if_pos h]
      exact (List.sublist_cons_self _ _)
    · rw [if_neg h]
      exact ih.cons₂ _

theorem foldl_mapRemove_sublist {β : Type} (ids : List Str)
    (m : List (Str × β)) :
    (ids.foldl (fun acc job_id => mapRemove acc job_id) m).Sublist m := by
  induction ids generalizing m with
  | nil => exact List.Sublist.refl m
  | cons i ids ih =>
    rw [List.foldl_cons]
    exact (ih (mapRemove m i)).trans (mapRemove_sublist m i)

theorem prune_sublist (jobs : JobStore) (limit : Nat) :
    (prune_completed_jobs_with_limit jobs limit).Sublist jobs := by
  simp only [prune_completed_jobs_with_limit]
  split
  · exact List.Sublist.refl jobs
  · exact foldl_mapRemove_sublist _ jobs

/-! ### Claim C2: retention pruning -/

/-- C2: retention pruning with cap 500 removes jobs only when more than 500
terminal-state jobs exist; when it does, exactly 500 terminal jobs remain,
only terminal jobs are removed (never a Queued or Running one), and every
removed job has a finished_at_ms (falling back to created_at_ms) no larger
than that of any surviving terminal job. -/
theorem prune_completed_jobs_with_limit_spec (jobs : JobStore)
    (h : (jobs.map Prod.fst).Nodup) :
    (terminalCount jobs ≤ 500 →
      prune_completed_jobs_with_limit jobs 500 = jobs) ∧
    (500 < terminalCount jobs →
      terminalCount (prune_completed_jobs_with_limit jobs 500) = 500) ∧
    (∀ p ∈ jobs, isTerminalStatus p.2.status = false →
      p ∈ prune_completed_jobs_with_limit jobs 500) ∧
    (∀ p ∈ jobs, p ∉ prune_completed_jobs_with_limit jobs 500 →
      isTerminalStatus p.2.status = true) ∧
    (∀ p q, p ∈ jobs → p ∉ prune_completed_jobs_with_limit jobs 500 →
      q ∈ prune_completed_jobs_with_limit jobs 500 →
      isTerminalStatus q.2.status = true → pruneKey p.2 ≤ pruneKey q.2) :=
  prune_general jobs 500 h

/-- Example request and records used by the concrete witnesses. -/
def exampleRequest : ExternalCommandRequest := .CreatePanes "w1".data 2

def exampleTerminalJob : AutomationJobRecord :=
  { job_id := "a".data, status := .Succeeded, request := exampleRequest,
    result := none, error := none, created_at_ms := 1,
    started_at_ms := some 2, finished_at_ms := some 3 }

def exampleQueuedJob : AutomationJobRecord :=
  { job_id := "b".data, status := .Queued, request := exampleRequest,
    result := none, error := none, created_at_ms := 4,
    started_at_ms := none, finished_at_ms := none }

def exampleStore : JobStore :=
  [("a".data, exampleTerminalJob), ("b".data, exampleQueuedJob)]

/-- Witness for C2: on a concrete store with one terminal and one queued
job, pruning with cap 500 removes nothing, and the queued job survives. -/
theorem prune_completed_jobs_with_limit_spec_witness :
    prune_completed_jobs_with_limit exampleStore 500 = exampleStore ∧
    ("b".data, exampleQueuedJob) ∈
      prune_completed_jobs_with_limit exampleStore 500 :=
  ⟨(prune_completed_jobs_with_limit_spec exampleStore (by decide)).1
      (by decide),
   (prune_completed_jobs_with_limit_spec exampleStore (by decide)).2.2.1
      ("b".data, exampleQueuedJob) (by decide) (by decide)⟩

/-! ### update_job_status (lib.rs 1295-1325) and the worker loop
(lib.rs 1877-1924) -/

/-- In-place mutation performed by `update_job_status` on the job record it
found: set the status, stamp started_at_ms when entering Running, stamp
finished_at_ms when entering a terminal state, and store result/error. -/
def applyStatusUpdate (job : AutomationJobRecord)
    (status : AutomationJobStatus) (result : Option JsonValue)
    (error : Option Str) (now : Nat) : AutomationJobRecord :=
  { job with
    status := status,
    started_at_ms :=
      if status = .Running then some now else job.started_at_ms,
    finished_at_ms :=
      if isTerminalStatus status then some now else job.finished_at_ms,
    result := result,
    error := error }

/-- Embedding of `update_job_status`: update the record stored under
`job_id` (no-op when absent) and, when the new status is terminal, run
retention pruning (cap 500). -/
def update_job_status (jobs : JobStore) (job_id : Str)
    (status : AutomationJobStatus) (result : Option JsonValue)
    (error : Option Str) (now : Nat) : JobStore :=
  let updated := jobs.map fun p =>
    if p.1 = job_id then
      (p.1, applyStatusUpdate p.2 status result error now)
    else p
  if isTerminalStatus status then prune_completed_jobs updated else updated

/-- Global state of the automation bridge as seen by `queue_automation_job`
and the worker loop of `start_automation_worker`: the job store, the
channel contents, the depth counter, the id of the job the serial worker is
currently processing (between its Running and terminal updates), and the
wall clock (now_millis is modelled as a monotone clock). -/
structure AutomationSystem where
  jobs : JobStore
  queue : List (Str × ExternalCommandRequest)
  queuedCount : Nat
  worker : Option Str
  clock : Nat
deriving Repr

def initialAutomationSystem : AutomationSystem :=
  { jobs := [], queue := [], queuedCount := 0, worker := none, clock := 0 }

/-- The record inserted by a successful `queue_automation_job` (lib.rs
1204-1213). -/
def enqueuedJobRecord (request : ExternalCommandRequest) (job_id : Str)
    (t : Nat) : AutomationJobRecord :=
  { job_id := job_id, status := .Queued, request := request, result := none,
    error := none, created_at_ms := t, started_at_ms := none,
    finished_at_ms := none }

/-- One observable step of the automation bridge:

* `enqueue` — `queue_automation_job` succeeds: a job with a fresh UUID id is
  inserted with status Queued, the counter incremented and the job sent
  into Q (lib.rs 1195-1244);
* `enqueueRolledBack` — `queue_automation_job` hits a failing send: the
  rollback leaves the store, counter and queue as they were;
* `workerStart` — the worker receives the next job from Q, decrements the
  counter and transitions the job to Running (lib.rs 1884-1892);
* `workerFinishOk` / `workerFinishErr` — the worker completes the job it
  holds and transitions it to Succeeded with a result, or Failed with an
  error (lib.rs 1902-1921). -/
inductive AutomationStep : AutomationSystem → AutomationSystem → Prop
  | enqueue (s : AutomationSystem) (request : ExternalCommandRequest)
      (job_id : Str) (t : Nat)
      (hfresh : mapLookup s.jobs job_id = none)
      (hcap : s.queuedCount < AUTOMATION_QUEUE_MAX)
      (hclock : s.clock ≤ t) :
      AutomationStep s
        { jobs := mapInsert s.jobs job_id (enqueuedJobRecord request job_id t),
          queue := s.queue ++ [(job_id, request)],
          queuedCount := s.queuedCount + 1,
          worker := s.worker, clock := t }
  | enqueueRolledBack (s : AutomationSystem) (t : Nat)
      (hclock : s.clock ≤ t) :
      AutomationStep s { s with clock := t }
  | workerStart (s : AutomationSystem) (job_id : Str)
      (request : ExternalCommandRequest)
      (rest : List (Str × ExternalCommandRequest)) (t : Nat)
      (hqueue : s.queue = (job_id, request) :: rest)
      (hworker : s.worker = none)
      (hclock : s.clock ≤ t) :
      AutomationStep s
        { jobs := update_job_status s.jobs job_id .Running none none t,
          queue := rest,
          queuedCount := s.queuedCount - 1,
          worker := some job_id, clock := t }
  | workerFinishOk (s : AutomationSystem) (job_id : Str)
      (result : JsonValue) (t : Nat)
      (hworker : s.worker = some job_id)
      (hclock : s.clock ≤ t) :
      AutomationStep s
        { jobs := update_job_status s.jobs job_id .Succeeded (some result)
            none t,
          queue := s.queue,
          queuedCount := s.queuedCount,
          worker := none, clock := t }
  | workerFinishErr (s : AutomationSystem) (job_id : Str) (error : Str)
      (t : Nat)
      (hworker : s.worker = some job_id)
      (hclock : s.clock ≤ t) :
      AutomationStep s
        { jobs := update_job_status s.jobs job_id .Failed none (some error)
            t,
          queue := s.queue,
          queuedCount := s.queuedCount,
          worker := none, clock := t }

inductive AutomationReachable : AutomationSystem → Prop
  | init : AutomationReachable initialAutomationSystem
  | step {s s' : AutomationSystem} : AutomationReachable s →
      AutomationStep s s' → AutomationReachable s'

/-- Status/timestamp discipline of a single job record as claimed by the
spec: Queued has no timestamps, Running has started_at_ms only, a terminal
job has both, and started_at_ms ≤ finished_at_ms whenever both are set. -/
def statusTimestampShape (j : AutomationJobRecord) : Prop :=
  (j.status = .Queued →
    j.started_at_ms = none ∧ j.finished_at_ms = none) ∧
  (j.status = .Running →
    j.started_at_ms ≠ none ∧ j.finished_at_ms = none) ∧
  (isTerminalStatus j.status = true →
    j.started_at_ms ≠ none ∧ j.finished_at_ms ≠ none) ∧
  (∀ ts tf, j.started_at_ms = some ts → j.finished_at_ms = some tf →
    ts ≤ tf)

/-- The status order Queued → Running → Succeeded or Failed (reflexivity
accounts for steps that do not touch the job). -/
def allowedStatusTransition (a b : AutomationJobStatus) : Prop :=
  a = b ∨ (a = .Queued ∧ b = .Running) ∨
    (a = .Running ∧ (b = .Succeeded ∨ b = .Failed))

/-- Internal invariant carried through the reachability induction. -/
def SystemInv (s : AutomationSystem) : Prop :=
  (s.jobs.map Prod.fst).Nodup ∧
  (s.queue.map Prod.fst).Nodup ∧
  (∀ p ∈ s.jobs,
    (p.2.status = .Queued →
      p.2.started_at_ms = none ∧ p.2.finished_at_ms = none) ∧
    (p.2.status = .Running →
      (∃ ts, p.2.started_at_ms = some ts ∧ ts ≤ s.clock) ∧
      p.2.finished_at_ms = none) ∧
    (isTerminalStatus p.2.status = true →
      ∃ ts tf, p.2.started_at_ms = some ts ∧ p.2.finished_at_ms = some tf ∧
        ts ≤ tf ∧ tf ≤ s.clock)) ∧
  (∀ q ∈ s.queue, ∃ j, (q.1, j) ∈ s.jobs ∧ j.status = .Queued) ∧
  (∀ id, s.worker = some id → ∃ j, (id, j) ∈ s.jobs ∧ j.status = .Running)

/-! ### Helper lemmas about update_job_status -/

theorem mapInsert_fresh_append {β : Type} (m : List (Str × β)) (k : Str)
    (v : β) (hfresh : mapLookup m k = none) :
    mapInsert m k v = m ++ [(k, v)] := by
  induction m with
  | nil => simp [mapInsert_nil]
  | cons hd tl ih =>
    obtain ⟨k', v'⟩ := hd
    rw [mapLookup_cons] at hfresh
    by_cases h : k' = k
    · rw [if_pos h] at hfresh
      exact absurd hfresh (by simp)
    · rw [if_neg h] at hfresh
      rw [mapInsert_cons, if_neg h, ih hfresh]
      simp

theorem update_map_fst (jobs : JobStore) (job_id : Str)
    (status : AutomationJobStatus) (result : Option JsonValue)
    (error : Option Str) (now : Nat) :
    ((jobs.map fun p =>
        if p.1 = job_id then
          (p.1, applyStatusUpdate p.2 status result error now)
        else p).map Prod.fst) = jobs.map Prod.fst := by
  rw [List.map_map]
  apply List.map_congr_left
  intro p _
  by_cases h : p.1 = job_id
  · simp [h]
  · simp [h]

theorem update_job_status_mem_cases (jobs : JobStore) (job_id : Str)
    (status : AutomationJobStatus) (result : Option JsonValue)
    (error : Option Str) (now : Nat) (p : Str × AutomationJobRecord)
    (hp : p ∈ update_job_status jobs job_id status result error now) :
    (p ∈ jobs ∧ p.1 ≠ job_id) ∨
      (∃ j, (job_id, j) ∈ jobs ∧
        p = (job_id, applyStatusUpdate j status result error now)) := by
  have hp' : p ∈ jobs.map fun q =>
      if q.1 = job_id then
        (q.1, applyStatusUpdate q.2 status result error now)
      else q := by
    simp only [update_job_status] at hp
    by_cases hterm : isTerminalStatus status = true
    · rw [if_pos hterm] at hp
      exact (prune_sublist _ _).subset hp
    · rw [if_neg hterm] at hp
      exact hp
  obtain ⟨q, hq, hqe⟩ := List.mem_map.mp hp'
  by_cases h : q.1 = job_id
  · right
    refine ⟨q.2, ?_, ?_⟩
    · rw [← h]
      exact hq
    · rw [← hqe, if_pos h, h]
  · left
    rw [← hqe, if_neg h]
    exact ⟨hq, h⟩

theorem update_keys_nodup (jobs : JobStore) (job_id : Str)
    (status : AutomationJobStatus) (result : Option JsonValue)
    (error : Option Str) (now : Nat)
    (hn : (jobs.map Prod.fst).Nodup) :
    ((update_job_status jobs job_id status result error now).map
      Prod.fst).Nodup := by
  simp only [update_job_status]
  by_cases hterm : isTerminalStatus status = true
  · rw [if_pos hterm]
    exact (((prune_sublist _ _).map Prod.fst).nodup
      (by rw [update_map_fst]; exact hn))
  · rw [if_neg hterm]
    rw [update_map_fst]
    exact hn

theorem update_mem_updated_self (jobs : JobStore) (job_id : Str)
    (status : AutomationJobStatus) (result : Option JsonValue)
    (error : Option Str) (now : Nat) (j : AutomationJobRecord)
    (hmem : (job_id, j) ∈ jobs) (hnonterm : isTerminalStatus status = false) :
    (job_id, applyStatusUpdate j status result error now) ∈
      update_job_status jobs job_id status result error now := by
  simp only [update_job_status]
  rw [if_neg (by rw [hnonterm]; simp)]
  have hmm := List.mem_map_of_mem
    (fun q : Str × AutomationJobRecord =>
      if q.1 = job_id then
        (q.1, applyStatusUpdate q.2 status result error now)
      else q) hmem
  have heq : (fun q : Str × AutomationJobRecord =>
      if q.1 = job_id then
        (q.1, applyStatusUpdate q.2 status result error now)
      else q) (job_id, j) =
      (job_id, applyStatusUpdate j status result error now) := if_pos rfl
  rw [heq] at hmm
  exact hmm

theorem update_preserves_other_nonterminal (jobs : JobStore) (job_id : Str)
    (status : AutomationJobStatus) (result : Option JsonValue)
    (error : Option Str) (now : Nat) (k : Str) (j : AutomationJobRecord)
    (hn : (jobs.map Prod.fst).Nodup) (hk : k ≠ job_id)
    (hmem : (k, j) ∈ jobs) (hjn : isTerminalStatus j.status = false) :
    (k, j) ∈ update_job_status jobs job_id status result error now := by
  have hmapped : (k, j) ∈ jobs.map fun q =>
      if q.1 = job_id then
        (q.1, applyStatusUpdate q.2 status result error now)
      else q := by
    have hmm := List.mem_map_of_mem
      (fun q : Str × AutomationJobRecord =>
        if q.1 = job_id then
          (q.1, applyStatusUpdate q.2 status result error now)
        else q) hmem
    have heq : (fun q : Str × AutomationJobRecord =>
        if q.1 = job_id then
          (q.1, applyStatusUpdate q.2 status result error now)
        else q) (k, j) = (k, j) := if_neg hk
    rw [heq] at hmm
    exact hmm
  simp only [update_job_status]
  by_cases hterm : isTerminalStatus status = true
  · rw [if_pos hterm]
    exact (prune_general _ AUTOMATION_COMPLETED_JOB_RETENTION_MAX
      (by rw [update_map_fst]; exact hn)).2.2.1 (k, j) hmapped hjn
  · rw [if_neg hterm]
    exact hmapped

/-! ### Invariant preservation for the automation system -/

theorem mapLookup_none_not_mem_fst {β : Type} (m : List (Str × β)) (k : Str)
    (hfresh : mapLookup m k = none) : k ∉ m.map Prod.fst := by
  intro hmem
  obtain ⟨p, hp, hpk⟩ := List.mem_map.mp hmem
  exact ((mapLookup_eq_none_iff m k).mp hfresh) p hp hpk

theorem systemInv_preserved {s s' : AutomationSystem} (hinv : SystemInv s)
    (hstep : AutomationStep s s') : SystemInv s' := by
  obtain ⟨hjn, hqn, hwf, hqueue, hworker⟩ := hinv
  cases hstep with
  | enqueue request job_id t hfresh hcap hclock =>
    have happ := mapInsert_fresh_append s.jobs job_id
      (enqueuedJobRecord request job_id t) hfresh
    have hnotin := mapLookup_none_not_mem_fst s.jobs job_id hfresh
    refine ⟨?_, ?_, ?_, ?_, ?_⟩
    · simp only [happ, List.map_append, List.map_cons, List.map_nil]
      rw [List.nodup_append]
      refine ⟨hjn, by simp, ?_⟩
      intro a ha hb
      simp only [List.mem_singleton] at hb
      exact hnotin (hb ▸ ha)
    · simp only [List.map_append, List.map_cons, List.map_nil]
      rw [List.nodup_append]
      refine ⟨hqn, by simp, ?_⟩
      intro a ha hb
      simp only [List.mem_singleton] at hb
      subst hb
      obtain ⟨p, hp, hpk⟩ := List.mem_map.mp ha
      obtain ⟨j, hj, _⟩ := hqueue p hp
      exact hnotin (hpk ▸ List.mem_map_of_mem Prod.fst hj)
    · intro p hp
      simp only [happ] at hp
      rcases List.mem_append.mp hp with hold | hnew
      · have := hwf p hold
        refine ⟨this.1, ?_, ?_⟩
        · intro hr
          obtain ⟨⟨ts, hts, htle⟩, hf⟩ := this.2.1 hr
          exact ⟨⟨ts, hts, le_trans htle hclock⟩, hf⟩
        · intro hterm
          obtain ⟨ts, tf, h1, h2, h3, h4⟩ := this.2.2 hterm
          exact ⟨ts, tf, h1, h2, h3, le_trans h4 hclock⟩
      · simp only [List.mem_singleton] at hnew
        subst hnew
        refine ⟨fun _ => ⟨rfl, rfl⟩,
          fun hr => by simp [enqueuedJobRecord] at hr,
          fun hterm => by simp [enqueuedJobRecord, isTerminalStatus] at hterm⟩
    · intro q hq
      have hq' : q ∈ s.queue ++ [(job_id, request)] := hq
      rcases List.mem_append.mp hq' with hold | hnew
      · obtain ⟨j, hj, hjs⟩ := hqueue q hold
        refine ⟨j, ?_, hjs⟩
        show (q.1, j) ∈ mapInsert s.jobs job_id _
        rw [happ]
        exact List.mem_append_left _ hj
      · simp only [List.mem_singleton] at hnew
        subst hnew
        refine ⟨enqueuedJobRecord request job_id t, ?_, rfl⟩
        show _ ∈ mapInsert s.jobs job_id _
        rw [happ]
        exact List.mem_append_right _ (List.mem_singleton.mpr rfl)
    · intro id hid
      have hid' : s.worker = some id := hid
      obtain ⟨j, hj, hjs⟩ := hworker id hid'
      refine ⟨j, ?_, hjs⟩
      show (id, j) ∈ mapInsert s.jobs job_id _
      rw [happ]
      exact List.mem_append_left _ hj
  | enqueueRolledBack t hclock =>
    refine ⟨hjn, hqn, ?_, hqueue, hworker⟩
    intro p hp
    have := hwf p hp
    refine ⟨this.1, ?_, ?_⟩
    · intro hr
      obtain ⟨⟨ts, hts, htle⟩, hf⟩ := this.2.1 hr
      exact ⟨⟨ts, hts, le_trans htle hclock⟩, hf⟩
    · intro hterm
      obtain ⟨ts, tf, h1, h2, h3, h4⟩ := this.2.2 hterm
      exact ⟨ts, tf, h1, h2, h3, le_trans h4 hclock⟩
  | workerStart job_id request rest t hqueuehead hworkernone hclock =>
    obtain ⟨jq, hjq, hjqQ⟩ := hqueue (job_id, request)
      (by rw [hqueuehead]; exact List.mem_cons_self _ _)
    have hidrest : job_id ∉ rest.map Prod.fst := by
      have := hqn
      rw [hqueuehead] at this
      simp only [List.map_cons, List.nodup_cons] at this
      exact this.1
    refine ⟨?_, ?_, ?_, ?_, ?_⟩
    · exact update_keys_nodup s.jobs job_id .Running none none t hjn
    · have := hqn
      rw [hqueuehead] at this
      simp only [List.map_cons, List.nodup_cons] at this
      exact this.2
    · intro p hp
      rcases update_job_status_mem_cases s.jobs job_id .Running none none t
        p hp with ⟨hold, _⟩ | ⟨j, hj, rfl⟩
      · have := hwf p hold
        refine ⟨this.1, ?_, ?_⟩
        · intro hr
          obtain ⟨⟨ts, hts, htle⟩, hf⟩ := this.2.1 hr
          exact ⟨⟨ts, hts, le_trans htle hclock⟩, hf⟩
        · intro hterm
          obtain ⟨ts, tf, h1, h2, h3, h4⟩ := this.2.2 hterm
          exact ⟨ts, tf, h1, h2, h3, le_trans h4 hclock⟩
      · have hjeq : j = jq := by
          have := List.inj_on_of_nodup_map hjn hj hjq rfl
          exact congrArg Prod.snd this
        subst hjeq
        have hjshape := (hwf (job_id, j) hj).1 hjqQ
        refine ⟨?_, ?_, ?_⟩
        · intro hcontra
          simp [applyStatusUpdate] at hcontra
        · intro _
          refine ⟨⟨t, ?_, le_refl t⟩, ?_⟩
          · simp [applyStatusUpdate]
          · simp [applyStatusUpdate, isTerminalStatus]
            exact hjshape.2
        · intro hcontra
          simp [applyStatusUpdate, isTerminalStatus] at hcontra
    · intro q hq
      simp only at hq
      obtain ⟨j', hj', hj's⟩ := hqueue q
        (by rw [hqueuehead]; exact List.mem_cons_of_mem _ hq)
      have hqne : q.1 ≠ job_id := by
        intro hc
        exact hidrest (hc ▸ List.mem_map_of_mem Prod.fst hq)
      refine ⟨j', ?_, hj's⟩
      exact update_preserves_other_nonterminal s.jobs job_id .Running none
        none t q.1 j' hjn hqne hj' (by rw [hj's]; rfl)
    · intro id hid
      simp only [Option.some_inj] at hid
      subst hid
      refine ⟨applyStatusUpdate jq .Running none none t, ?_, rfl⟩
      exact update_mem_updated_self s.jobs job_id .Running none none t jq hjq
        rfl
  | workerFinishOk job_id result t hworkersome hclock =>
    obtain ⟨jr, hjr, hjrR⟩ := hworker job_id hworkersome
    refine ⟨?_, hqn, ?_, ?_, ?_⟩
    · exact update_keys_nodup s.jobs job_id .Succeeded (some result) none t
        hjn
    · intro p hp
      rcases update_job_status_mem_cases s.jobs job_id .Succeeded
        (some result) none t p hp with ⟨hold, _⟩ | ⟨j, hj, rfl⟩
      · have := hwf p hold
        refine ⟨this.1, ?_, ?_⟩
        · intro hr
          obtain ⟨⟨ts, hts, htle⟩, hf⟩ := this.2.1 hr
          exact ⟨⟨ts, hts, le_trans htle hclock⟩, hf⟩
        · intro hterm
          obtain ⟨ts, tf, h1, h2, h3, h4⟩ := this.2.2 hterm
          exact ⟨ts, tf, h1, h2, h3, le_trans h4 hclock⟩
      · have hjeq : j = jr := by
          have := List.inj_on_of_nodup_map hjn hj hjr rfl
          exact congrArg Prod.snd this
        subst hjeq
        obtain ⟨⟨ts, hts, htle⟩, hfin⟩ := (hwf (job_id, j) hj).2.1 hjrR
        refine ⟨?_, ?_, ?_⟩
        · intro hcontra
          simp [applyStatusUpdate] at hcontra
        · intro hcontra
          simp [applyStatusUpdate] at hcontra
        · intro _
          refine ⟨ts, t, ?_, ?_, le_trans htle hclock, le_refl t⟩
          · simp [applyStatusUpdate]
            exact hts
          · simp [applyStatusUpdate, isTerminalStatus]
    · intro q hq
      simp only at hq
      obtain ⟨j', hj', hj's⟩ := hqueue q hq
      have hqne : q.1 ≠ job_id := by
        intro hc
        have hj'' : (job_id, j') ∈ s.jobs := by
          rw [← hc]
          exact hj'
        have heq := List.inj_on_of_nodup_map hjn hj'' hjr rfl
        have hje : j' = jr := congrArg Prod.snd heq
        rw [hje, hjrR] at hj's
        exact absurd hj's (by simp)
      refine ⟨j', ?_, hj's⟩
      exact update_preserves_other_nonterminal s.jobs job_id .Succeeded
        (some result) none t q.1 j' hjn hqne hj' (by rw [hj's]; rfl)
    · intro id hid
      simp at hid
  | workerFinishErr job_id error t hworkersome hclock =>
    obtain ⟨jr, hjr, hjrR⟩ := hworker job_id hworkersome
    refine ⟨?_, hqn, ?_, ?_, ?_⟩
    · exact update_keys_nodup s.jobs job_id .Failed none (some error) t hjn
    · intro p hp
      rcases update_job_status_mem_cases s.jobs job_id .Failed none
        (some error) t p hp with ⟨hold, _⟩ | ⟨j, hj, rfl⟩
      · have := hwf p hold
        refine ⟨this.1, ?_, ?_⟩
        · intro hr
          obtain ⟨⟨ts, hts, htle⟩, hf⟩ := this.2.1 hr
          exact ⟨⟨ts, hts, le_trans htle hclock⟩, hf⟩
        · intro hterm
          obtain ⟨ts, tf, h1, h2, h3, h4⟩ := this.2.2 hterm
          exact ⟨ts, tf, h1, h2, h3, le_trans h4 hclock⟩
      · have hjeq : j = jr := by
          have := List.inj_on_of_nodup_map hjn hj hjr rfl
          exact congrArg Prod.snd this
        subst hjeq
        obtain ⟨⟨ts, hts, htle⟩, hfin⟩ := (hwf (job_id, j) hj).2.1 hjrR
        refine ⟨?_, ?_, ?_⟩
        · intro hcontra
          simp [applyStatusUpdate] at hcontra
        · intro hcontra
          simp [applyStatusUpdate] at hcontra
        · intro _
          refine ⟨ts, t, ?_, ?_, le_trans htle hclock, le_refl t⟩
          · simp [applyStatusUpdate]
            exact hts
          · simp [applyStatusUpdate, isTerminalStatus]
    · intro q hq
      simp only at hq
      obtain ⟨j', hj', hj's⟩ := hqueue q hq
      have hqne : q.1 ≠ job_id := by
        intro hc
        have hj'' : (job_id, j') ∈ s.jobs := by
          rw [← hc]
          exact hj'
        have heq := List.inj_on_of_nodup_map hjn hj'' hjr rfl
        have hje : j' = jr := congrArg Prod.snd heq
        rw [hje, hjrR] at hj's
        exact absurd hj's (by simp)
      refine ⟨j', ?_, hj's⟩
      exact update_preserves_other_nonterminal s.jobs job_id .Failed none
        (some error) t q.1 j' hjn hqne hj' (by rw [hj's]; rfl)
    · intro id hid
      simp at hid

theorem reachable_systemInv {s : AutomationSystem}
    (h : AutomationReachable s) : SystemInv s := by
  induction h with
  | init =>
    refine ⟨by simp [initialAutomationSystem], by simp [initialAutomationSystem],
      ?_, ?_, ?_⟩
    · intro p hp
      simp [initialAutomationSystem] at hp
    · intro q hq
      simp [initialAutomationSystem] at hq
    · intro id hid
      simp [initialAutomationSystem] at hid
  | step _ hs ih => exact systemInv_preserved ih hs

/-! ### Claim C1: job status lifecycle -/

/-- C1: in every reachable state of the automation bridge, every job record
satisfies the status/timestamp discipline (started_at_ms set exactly when
Running was entered, finished_at_ms set exactly in a terminal state,
started_at_ms ≤ finished_at_ms when both are set), and across any further
step each job's status moves only along Queued → Running → Succeeded or
Failed, a terminal record never changing again. -/
theorem automation_job_lifecycle (s s' : AutomationSystem)
    (hreach : AutomationReachable s) (hstep : AutomationStep s s') :
    (∀ p ∈ s.jobs, statusTimestampShape p.2) ∧
    (∀ id j j', (id, j) ∈ s.jobs → (id, j') ∈ s'.jobs →
      allowedStatusTransition j.status j'.status) ∧
    (∀ id j j', (id, j) ∈ s.jobs → isTerminalStatus j.status = true →
      (id, j') ∈ s'.jobs → j' = j) := by
  obtain ⟨hjn, hqn, hwf, hqueue, hworker⟩ := reachable_systemInv hreach
  have huniq : ∀ (id : Str) (a b : AutomationJobRecord),
      (id, a) ∈ s.jobs → (id, b) ∈ s.jobs → a = b := by
    intro id a b ha hb
    exact congrArg Prod.snd (List.inj_on_of_nodup_map hjn ha hb rfl)
  refine ⟨?_, ?_, ?_⟩
  · -- timestamp discipline
    intro p hp
    have hshape := hwf p hp
    refine ⟨hshape.1, ?_, ?_, ?_⟩
    · intro hr
      obtain ⟨⟨ts, hts, _⟩, hf⟩ := hshape.2.1 hr
      exact ⟨by rw [hts]; simp, hf⟩
    · intro hterm
      obtain ⟨ts, tf, h1, h2, _, _⟩ := hshape.2.2 hterm
      exact ⟨by rw [h1]; simp, by rw [h2]; simp⟩
    · intro ts tf hts htf
      cases hst : p.2.status with
      | Queued =>
        have := (hshape.1 hst).1
        rw [this] at hts
        exact absurd hts (by simp)
      | Running =>
        have := (hshape.2.1 hst).2
        rw [this] at htf
        exact absurd htf (by simp)
      | Succeeded =>
        obtain ⟨ts', tf', h1, h2, h3, _⟩ := hshape.2.2 (by rw [hst]; rfl)
        rw [h1] at hts
        rw [h2] at htf
        obtain rfl : ts' = ts := by injection hts
        obtain rfl : tf' = tf := by injection htf
        exact h3
      | Failed =>
        obtain ⟨ts', tf', h1, h2, h3, _⟩ := hshape.2.2 (by rw [hst]; rfl)
        rw [h1] at hts
        rw [h2] at htf
        obtain rfl : ts' = ts := by injection hts
        obtain rfl : tf' = tf := by injection htf
        exact h3
  · -- transitions follow the status order
    intro id j j' hj hj'
    cases hstep with
    | enqueue request job_id t hfresh hcap hclock =>
      have happ := mapInsert_fresh_append s.jobs job_id
        (enqueuedJobRecord request job_id t) hfresh
      have hnotin := mapLookup_none_not_mem_fst s.jobs job_id hfresh
      have hj'' : (id, j') ∈
          s.jobs ++ [(job_id, enqueuedJobRecord request job_id t)] := by
        rw [← happ]
        exact hj'
      rcases List.mem_append.mp hj'' with hold | hnew
      · left
        rw [huniq id j j' hj hold]
      · simp only [List.mem_singleton, Prod.mk.injEq] at hnew
        exact absurd (hnew.1 ▸ List.mem_map_of_mem Prod.fst hj) hnotin
    | enqueueRolledBack t hclock =>
      left
      rw [huniq id j j' hj hj']
    | workerStart job_id request rest t hqueuehead hworkernone hclock =>
      rcases update_job_status_mem_cases s.jobs job_id .Running none none t
        (id, j') hj' with ⟨hold, _⟩ | ⟨jj, hjj, heq⟩
      · left
        rw [huniq id j j' hj hold]
      · have hid : id = job_id := congrArg Prod.fst heq
        have hj'eq : j' = applyStatusUpdate jj .Running none none t :=
          congrArg Prod.snd heq
        obtain ⟨jq, hjq, hjqQ⟩ := hqueue (job_id, request)
          (by rw [hqueuehead]; exact List.mem_cons_self _ _)
        have hjjq : jj = jq := huniq job_id jj jq hjj hjq
        have hjeq : j = jj := huniq job_id j jj (hid ▸ hj) hjj
        right
        left
        constructor
        · rw [hjeq, hjjq]
          exact hjqQ
        · rw [hj'eq]
          rfl
    | workerFinishOk job_id result t hworkersome hclock =>
      rcases update_job_status_mem_cases s.jobs job_id .Succeeded
        (some result) none t (id, j') hj' with ⟨hold, _⟩ | ⟨jj, hjj, heq⟩
      · left
        rw [huniq id j j' hj hold]
      · have hid : id = job_id := congrArg Prod.fst heq
        have hj'eq : j' = applyStatusUpdate jj .Succeeded (some result)
            none t := congrArg Prod.snd heq
        obtain ⟨jr, hjr, hjrR⟩ := hworker job_id hworkersome
        have hjjr : jj = jr := huniq job_id jj jr hjj hjr
        have hjeq : j = jj := huniq job_id j jj (hid ▸ hj) hjj
        right
        right
        constructor
        · rw [hjeq, hjjr]
          exact hjrR
        · left
          rw [hj'eq]
          rfl
    | workerFinishErr job_id error t hworkersome hclock =>
      rcases update_job_status_mem_cases s.jobs job_id .Failed none
        (some error) t (id, j') hj' with ⟨hold, _⟩ | ⟨jj, hjj, heq⟩
      · left
        rw [huniq id j j' hj hold]
      · have hid : id = job_id := congrArg Prod.fst heq
        have hj'eq : j' = applyStatusUpdate jj .Failed none (some error) t :=
          congrArg Prod.snd heq
        obtain ⟨jr, hjr, hjrR⟩ := hworker job_id hworkersome
        have hjjr : jj = jr := huniq job_id jj jr hjj hjr
        have hjeq : j = jj := huniq job_id j jj (hid ▸ hj) hjj
        right
        right
        constructor
        · rw [hjeq, hjjr]
          exact hjrR
        · right
          rw [hj'eq]
          rfl
  · -- terminal records never change again
    intro id j j' hj hterm hj'
    cases hstep with
    | enqueue request job_id t hfresh hcap hclock =>
      have happ := mapInsert_fresh_append s.jobs job_id
        (enqueuedJobRecord request job_id t) hfresh
      have hnotin := mapLookup_none_not_mem_fst s.jobs job_id hfresh
      have hj'' : (id, j') ∈
          s.jobs ++ [(job_id, enqueuedJobRecord request job_id t)] := by
        rw [← happ]
        exact hj'
      rcases List.mem_append.mp hj'' with hold | hnew
      · exact huniq id j' j hold hj
      · simp only [List.mem_singleton, Prod.mk.injEq] at hnew
        exact absurd (hnew.1 ▸ List.mem_map_of_mem Prod.fst hj) hnotin
    | enqueueRolledBack t hclock =>
      exact huniq id j' j hj' hj
    | workerStart job_id request rest t hqueuehead hworkernone hclock =>
      rcases update_job_status_mem_cases s.jobs job_id .Running none none t
        (id, j') hj' with ⟨hold, _⟩ | ⟨jj, hjj, heq⟩
      · exact huniq id j' j hold hj
      · have hid : id = job_id := congrArg Prod.fst heq
        obtain ⟨jq, hjq, hjqQ⟩ := hqueue (job_id, request)
          (by rw [hqueuehead]; exact List.mem_cons_self _ _)
        have hjeq : j = jq := huniq job_id j jq (hid ▸ hj) hjq
        rw [hjeq, hjqQ] at hterm
        exact absurd hterm (by simp [isTerminalStatus])
    | workerFinishOk job_id result t hworkersome hclock =>
      rcases update_job_status_mem_cases s.jobs job_id .Succeeded
        (some result) none t (id, j') hj' with ⟨hold, _⟩ | ⟨jj, hjj, heq⟩
      · exact huniq id j' j hold hj
      · have hid : id = job_id := congrArg Prod.fst heq
        obtain ⟨jr, hjr, hjrR⟩ := hworker job_id hworkersome
        have hjeq : j = jr := huniq job_id j jr (hid ▸ hj) hjr
        rw [hjeq, hjrR] at hterm
        exact absurd hterm (by simp [isTerminalStatus])
    | workerFinishErr job_id error t hworkersome hclock =>
      rcases update_job_status_mem_cases s.jobs job_id .Failed none
        (some error) t (id, j') hj' with ⟨hold, _⟩ | ⟨jj, hjj, heq⟩
      · exact huniq id j' j hold hj
      · have hid : id = job_id := congrArg Prod.fst heq
        obtain ⟨jr, hjr, hjrR⟩ := hworker job_id hworkersome
        have hjeq : j = jr := huniq job_id j jr (hid ▸ hj) hjr
        rw [hjeq, hjrR] at hterm
        exact absurd hterm (by simp [isTerminalStatus])

/-- Concrete run for the lifecycle witness: one job enqueued at time 1. -/
def exampleSys1 : AutomationSystem :=
  { jobs := [("j1".data, enqueuedJobRecord exampleRequest "j1".data 1)],
    queue := [("j1".data, exampleRequest)],
    queuedCount := 1, worker := none, clock := 1 }

/-- The same run after the worker picked the job up at time 2. -/
def exampleSys2 : AutomationSystem :=
  { jobs := update_job_status exampleSys1.jobs "j1".data .Running none none 2,
    queue := [], queuedCount := 0, worker := some "j1".data, clock := 2 }

theorem exampleSys1_reachable : AutomationReachable exampleSys1 :=
  AutomationReachable.step AutomationReachable.init
    (AutomationStep.enqueue initialAutomationSystem exampleRequest
      "j1".data 1 rfl (by decide) (by decide))

theorem exampleStep12 : AutomationStep exampleSys1 exampleSys2 :=
  AutomationStep.workerStart exampleSys1 "j1".data exampleRequest [] 2
    rfl rfl (by decide)

/-- Witness for C1: the lifecycle theorem applied to the concrete two-step
run, instantiated at its single job. -/
theorem automation_job_lifecycle_witness :
    statusTimestampShape (enqueuedJobRecord exampleRequest "j1".data 1) ∧
    allowedStatusTransition .Queued .Running :=
  ⟨(automation_job_lifecycle exampleSys1 exampleSys2 exampleSys1_reachable
      exampleStep12).1
      ("j1".data, enqueuedJobRecord exampleRequest "j1".data 1) (by decide),
   (automation_job_lifecycle exampleSys1 exampleSys2 exampleSys1_reachable
      exampleStep12).2.1
      "j1".data (enqueuedJobRecord exampleRequest "j1".data 1)
      (applyStatusUpdate (enqueuedJobRecord exampleRequest "j1".data 1)
        .Running none none 2)
      (by decide) (by decide)⟩

/-! ### run_command_on_panes (lib.rs 1596-1654)

A pane (`PaneRuntime`) is modelled by its suspended flag, an optional write
error (the pty writer either accepts `write_all`+`flush` or fails them with
a fixed error message), and the buffer of bytes accepted so far.  The pane
registry `R` is the association map from pane id to pane. -/

structure PaneRuntime where
  suspended : Bool
  writeError : Option Str
  buffer : Str
deriving DecidableEq, Repr

structure PaneCommandResult where
  pane_id : Str
  ok : Bool
  error : Option Str
deriving DecidableEq, Repr

abbrev PaneRegistry := List (Str × PaneRuntime)

/-- The pane record after a successful write: the command bytes plus the
optional newline are appended to the accepted buffer. -/
def writtenPane (pane : PaneRuntime) (command : Str) (execute : Bool) :
    PaneRuntime :=
  { pane with buffer :=
      pane.buffer ++ command ++ (if execute then ['\n'] else []) }

/-- Registry after writing the command to the pane stored under `pane_id`
(whose record is `pane`). -/
def paneWrite (reg : PaneRegistry) (pane_id : Str) (pane : PaneRuntime)
    (command : Str) (execute : Bool) : PaneRegistry :=
  reg.map fun p =>
    if p.1 = pane_id then (p.1, writtenPane pane command execute) else p

/-- Embedding of `run_command_on_panes`: visit the given pane ids in order;
a missing pane yields "pane not found", a suspended pane yields
"pane is suspended" without writing, otherwise the command bytes plus the
optional newline are written (appended to the pane's buffer) and flushed.
Returns the final registry and the per-pane outcomes in input order. -/
def run_command_on_panes (pane_registry : PaneRegistry)
    (pane_ids : List Str) (command : Str) (execute : Bool) :
    PaneRegistry × List PaneCommandResult :=
  match pane_ids with
  | [] => (pane_registry, [])
  | pane_id :: rest =>
    match mapLookup pane_registry pane_id with
    | none =>
      let r := run_command_on_panes pane_registry rest command execute
      (r.1, { pane_id := pane_id, ok := false,
              error := some "pane not found".data } :: r.2)
    | some pane =>
      if pane.suspended then
        let r := run_command_on_panes pane_registry rest command execute
        (r.1, { pane_id := pane_id, ok := false,
                error := some "pane is suspended".data } :: r.2)
      else
        match pane.writeError with
        | some err =>
          let r := run_command_on_panes pane_registry rest command execute
          (r.1, { pane_id := pane_id, ok := false, error := some err } :: r.2)
        | none =>
          let reg1 := paneWrite pane_registry pane_id pane command execute
          let r := run_command_on_panes reg1 rest command execute
          (r.1, { pane_id := pane_id, ok := true, error := none } :: r.2)

/-- Outcome of one pane id against a registry, as described by the spec. -/
def paneCommandOutcome (reg : PaneRegistry) (pane_id : Str) :
    PaneCommandResult :=
  match mapLookup reg pane_id with
  | none =>
    { pane_id := pane_id, ok := false, error := some "pane not found".data }
  | some pane =>
    if pane.suspended then
      { pane_id := pane_id, ok := false,
        error := some "pane is suspended".data }
    else
      match pane.writeError with
      | some err => { pane_id := pane_id, ok := false, error := some err }
      | none => { pane_id := pane_id, ok := true, error := none }

theorem mapLookup_some_mem {β : Type} (m : List (Str × β)) (k : Str) (v : β)
    (h : mapLookup m k = some v) : (k, v) ∈ m := by
  induction m with
  | nil => simp [mapLookup_nil] at h
  | cons hd tl ih =>
    obtain ⟨k', v'⟩ := hd
    rw [mapLookup_cons] at h
    by_cases hk : k' = k
    · rw [if_pos hk] at h
      subst hk
      obtain rfl : v' = v := by injection h
      exact List.mem_cons_self _ _
    · rw [if_neg hk] at h
      exact List.mem_cons_of_mem _ (ih h)

theorem mapLookup_pane_update (reg : PaneRegistry) (pane_id : Str)
    (newPane : PaneRuntime) (x : Str) :
    mapLookup (reg.map fun p =>
        if p.1 = pane_id then (p.1, newPane) else p) x =
      if x = pane_id then (mapLookup reg x).map (fun _ => newPane)
      else mapLookup reg x := by
  induction reg with
  | nil => simp [mapLookup_nil]
  | cons hd tl ih =>
    obtain ⟨k', v'⟩ := hd
    by_cases hkp : k' = pane_id
    · subst hkp
      by_cases hx : k' = x
      · subst hx
        simp [mapLookup_cons]
      · simp [mapLookup_cons, hx, Ne.symm hx, ih]
    · by_cases hx : k' = x
      · subst hx
        simp [mapLookup_cons, hkp, Ne.symm hkp]
      · simp [mapLookup_cons, hkp, hx, ih]

theorem mapLookup_paneWrite (reg : PaneRegistry) (pane_id : Str)
    (pane : PaneRuntime) (command : Str) (execute : Bool) (x : Str) :
    mapLookup (paneWrite reg pane_id pane command execute) x =
      if x = pane_id then
        (mapLookup reg x).map (fun _ => writtenPane pane command execute)
      else mapLookup reg x :=
  mapLookup_pane_update reg pane_id (writtenPane pane command execute) x

theorem paneWrite_map_fst (reg : PaneRegistry) (pane_id : Str)
    (pane : PaneRuntime) (command : Str) (execute : Bool) :
    ((paneWrite reg pane_id pane command execute).map Prod.fst) =
      reg.map Prod.fst := by
  rw [paneWrite, List.map_map]
  apply List.map_congr_left
  intro p _
  by_cases h : p.1 = pane_id
  · simp [h]
  · simp [h]

theorem paneWrite_mem_other (reg : PaneRegistry) (pane_id : Str)
    (pane : PaneRuntime) (command : Str) (execute : Bool) (id : Str)
    (q : PaneRuntime) (hne : id ≠ pane_id) (hmem : (id, q) ∈ reg) :
    (id, q) ∈ paneWrite reg pane_id pane command execute := by
  have hmm := List.mem_map_of_mem (fun p : Str × PaneRuntime =>
    if p.1 = pane_id then (p.1, writtenPane pane command execute) else p)
    hmem
  have heq : (fun p : Str × PaneRuntime =>
      if p.1 = pane_id then (p.1, writtenPane pane command execute) else p)
      (id, q) = (id, q) := if_neg hne
  rw [heq] at hmm
  exact hmm

theorem paneWrite_mem_self (reg : PaneRegistry) (pane_id : Str)
    (pane : PaneRuntime) (command : Str) (execute : Bool)
    (q : PaneRuntime) (hmem : (pane_id, q) ∈ reg) :
    (pane_id, writtenPane pane command execute) ∈
      paneWrite reg pane_id pane command execute := by
  have hmm := List.mem_map_of_mem (fun p : Str × PaneRuntime =>
    if p.1 = pane_id then (p.1, writtenPane pane command execute) else p)
    hmem
  have heq : (fun p : Str × PaneRuntime =>
      if p.1 = pane_id then (p.1, writtenPane pane command execute) else p)
      (pane_id, q) = (pane_id, writtenPane pane command execute) :=
    if_pos rfl
  rw [heq] at hmm
  exact hmm

theorem paneCommandOutcome_paneWrite (reg : PaneRegistry) (pane_id : Str)
    (pane : PaneRuntime) (command : Str) (execute : Bool)
    (hlook : mapLookup reg pane_id = some pane) (x : Str) :
    paneCommandOutcome (paneWrite reg pane_id pane command execute) x =
      paneCommandOutcome reg x := by
  have hl := mapLookup_paneWrite reg pane_id pane command execute x
  by_cases hx : x = pane_id
  · subst hx
    rw [if_pos rfl, hlook] at hl
    unfold paneCommandOutcome
    rw [hl, hlook]
    simp [writtenPane]
  · rw [if_neg hx] at hl
    unfold paneCommandOutcome
    rw [hl]

theorem assoc_uniq {β : Type} (m : List (Str × β))
    (h : (m.map Prod.fst).Nodup) {k : Str} {a b : β} (ha : (k, a) ∈ m)
    (hb : (k, b) ∈ m) : a = b :=
  congrArg Prod.snd (List.inj_on_of_nodup_map h ha hb rfl)

theorem run_command_results (command : Str) (execute : Bool)
    (ids : List Str) (reg : PaneRegistry) :
    (run_command_on_panes reg ids command execute).2 =
      ids.map (paneCommandOutcome reg) := by
  induction ids generalizing reg with
  | nil => rfl
  | cons pid rest ih =>
    rw [List.map_cons]
    cases hlook : mapLookup reg pid with
    | none =>
      rw [run_command_on_panes, hlook]
      rw [paneCommandOutcome, hlook]
      simp only []
      rw [ih]
    | some pane =>
      cases hs : pane.suspended with
      | true =>
        rw [run_command_on_panes, hlook]
        rw [paneCommandOutcome, hlook]
        simp only [hs, if_true]
        rw [ih]
      | false =>
        cases herr : pane.writeError with
        | some err =>
          rw [run_command_on_panes, hlook]
          rw [paneCommandOutcome, hlook]
          simp only [hs, Bool.false_eq_true, if_false, herr]
          rw [ih]
        | none =>
          rw [run_command_on_panes, hlook]
          rw [paneCommandOutcome, hlook]
          simp only [hs, Bool.false_eq_true, if_false, herr]
          rw [ih]
          congr 1
          apply List.map_congr_left
          intro x _
          exact paneCommandOutcome_paneWrite reg pid pane command execute
            hlook x

theorem run_command_suspended_untouched (command : Str) (execute : Bool)
    (ids : List Str) (reg : PaneRegistry)
    (hn : (reg.map Prod.fst).Nodup) (id : Str) (pane : PaneRuntime)
    (hmem : (id, pane) ∈ reg) (hs : pane.suspended = true) :
    (id, pane) ∈ (run_command_on_panes reg ids command execute).1 := by
  induction ids generalizing reg with
  | nil => exact hmem
  | cons pid rest ih =>
    cases hlook : mapLookup reg pid with
    | none =>
      rw [run_command_on_panes, hlook]
      exact ih reg hn hmem
    | some p0 =>
      cases hps : p0.suspended with
      | true =>
        rw [run_command_on_panes, hlook]
        simp only [hps, if_true]
        exact ih reg hn hmem
      | false =>
        cases herr : p0.writeError with
        | some err =>
          rw [run_command_on_panes, hlook]
          simp only [hps, Bool.false_eq_true, if_false, herr]
          exact ih reg hn hmem
        | none =>
          rw [run_command_on_panes, hlook]
          simp only [hps, Bool.false_eq_true, if_false, herr]
          have hne : id ≠ pid := by
            intro hc
            subst hc
            have := assoc_uniq reg hn hmem (mapLookup_some_mem reg id p0 hlook)
            rw [this, hps] at hs
            exact absurd hs (by simp)
          exact ih _ (by rw [paneWrite_map_fst]; exact hn)
            (paneWrite_mem_other reg pid p0 command execute id pane hne hmem)

theorem run_command_writes (command : Str) (execute : Bool)
    (ids : List Str) (reg : PaneRegistry)
    (hn : (reg.map Prod.fst).Nodup) (id : Str) (pane : PaneRuntime)
    (hmem : (id, pane) ∈ reg) (hs : pane.suspended = false)
    (herrn : pane.writeError = none) :
    (id, { pane with buffer := pane.buffer ++
        (List.replicate (ids.count id)
          (command ++ (if execute then ['\n'] else []))).flatten }) ∈
      (run_command_on_panes reg ids command execute).1 := by
  induction ids generalizing reg pane with
  | nil =>
    simpa using hmem
  | cons pid rest ih =>
    cases hlook : mapLookup reg pid with
    | none =>
      have hne : pid ≠ id := by
        intro hc
        subst hc
        exact ((mapLookup_eq_none_iff reg pid).mp hlook) (pid, pane) hmem rfl
      rw [run_command_on_panes, hlook]
      rw [List.count_cons]
      simp only [beq_iff_eq, hne, if_false, Nat.add_zero]
      exact ih reg hn pane hmem hs herrn
    | some p0 =>
      cases hps : p0.suspended with
      | true =>
        have hne : pid ≠ id := by
          intro hc
          subst hc
          have := assoc_uniq reg hn hmem
            (mapLookup_some_mem reg pid p0 hlook)
          rw [this, hps] at hs
          exact absurd hs (by simp)
        rw [run_command_on_panes, hlook]
        simp only [hps, if_true]
        rw [List.count_cons]
        simp only [beq_iff_eq, hne, if_false, Nat.add_zero]
        exact ih reg hn pane hmem hs herrn
      | false =>
        cases herr : p0.writeError with
        | some err =>
          have hne : pid ≠ id := by
            intro hc
            subst hc
            have := assoc_uniq reg hn hmem
              (mapLookup_some_mem reg pid p0 hlook)
            rw [this, herr] at herrn
            exact absurd herrn (by simp)
          rw [run_command_on_panes, hlook]
          simp only [hps, Bool.false_eq_true, if_false, herr]
          rw [List.count_cons]
          simp only [beq_iff_eq, hne, if_false, Nat.add_zero]
          exact ih reg hn pane hmem hs herrn
        | none =>
          rw [run_command_on_panes, hlook]
          simp only [hps, Bool.false_eq_true, if_false, herr]
          by_cases hce : pid = id
          · subst hce
            have hpeq : pane = p0 :=
              assoc_uniq reg hn hmem (mapLookup_some_mem reg pid p0 hlook)
            subst hpeq
            have hrec := ih (paneWrite reg pid pane command execute)
              (by rw [paneWrite_map_fst]; exact hn)
              (writtenPane pane command execute)
              (paneWrite_mem_self reg pid pane command execute pane hmem)
              hs herrn
            rw [List.count_cons]
            simp only [beq_self_eq_true, if_true]
            have hbuf : ({ pane with buffer := pane.buffer ++
                (List.replicate (rest.count pid + 1)
                  (command ++ (if execute then ['\n'] else []))).flatten } :
                PaneRuntime) =
                { writtenPane pane command execute with
                  buffer := (writtenPane pane command execute).buffer ++
                    (List.replicate (rest.count pid)
                      (command ++ (if execute then ['\n'] else []))).flatten
                  } := by
              simp only [writtenPane, List.replicate_succ, List.flatten_cons]
              simp [List.append_assoc]
            rw [hbuf]
            exact hrec
          · have hne : pid ≠ id := hce
            rw [List.count_cons]
            simp only [beq_iff_eq, hne, if_false, Nat.add_zero]
            exact ih _ (by rw [paneWrite_map_fst]; exact hn) pane
              (paneWrite_mem_other reg pid p0 command execute id pane
                (fun hc => hne hc.symm) hmem)
              hs herrn

/-! ### Claim C5: per-pane broadcast outcomes -/

/-- C5: `run_command_on_panes` returns one outcome per input id, in input
order: a missing id yields "pane not found", a suspended pane yields
"pane is suspended" and its record (buffer included) is untouched, and an
accepting pane gets the command bytes plus the optional newline written
once per occurrence of its id, yielding ok. -/
theorem run_command_on_panes_spec (reg : PaneRegistry) (ids : List Str)
    (command : Str) (execute : Bool) (hn : (reg.map Prod.fst).Nodup) :
    (run_command_on_panes reg ids command execute).2 =
      ids.map (paneCommandOutcome reg) ∧
    (∀ id pane, (id, pane) ∈ reg → pane.suspended = true →
      (id, pane) ∈ (run_command_on_panes reg ids command execute).1) ∧
    (∀ id pane, (id, pane) ∈ reg → pane.suspended = false →
      pane.writeError = none →
      (id, { pane with buffer := pane.buffer ++
          (List.replicate (ids.count id)
            (command ++ (if execute then ['\n'] else []))).flatten }) ∈
        (run_command_on_panes reg ids command execute).1) :=
  ⟨run_command_results command execute ids reg,
   fun id pane hmem hs =>
     run_command_suspended_untouched command execute ids reg hn id pane
       hmem hs,
   fun id pane hmem hs herrn =>
     run_command_writes command execute ids reg hn id pane hmem hs herrn⟩

/-- Concrete registry for the C5 witness: one live pane, one suspended. -/
def examplePaneRegistry : PaneRegistry :=
  [("p1".data, { suspended := false, writeError := none, buffer := [] }),
   ("p2".data, { suspended := true, writeError := none, buffer := [] })]

/-- Witness for C5: broadcasting "ls" to a live pane, a suspended pane and
a missing pane produces the three claimed outcomes in order, leaves the
suspended pane untouched and appends "ls\n" to the live pane. -/
theorem run_command_on_panes_spec_witness :
    (run_command_on_panes examplePaneRegistry
        ["p1".data, "p2".data, "p3".data] "ls".data true).2 =
      ["p1".data, "p2".data, "p3".data].map
        (paneCommandOutcome examplePaneRegistry) ∧
    ("p2".data,
      ({ suspended := true, writeError := none,
         buffer := [] } : PaneRuntime)) ∈
      (run_command_on_panes examplePaneRegistry
        ["p1".data, "p2".data, "p3".data] "ls".data true).1 :=
  ⟨(run_command_on_panes_spec examplePaneRegistry
      ["p1".data, "p2".data, "p3".data] "ls".data true (by decide)).1,
   (run_command_on_panes_spec examplePaneRegistry
      ["p1".data, "p2".data, "p3".data] "ls".data true (by decide)).2.1
      "p2".data { suspended := true, writeError := none, buffer := [] }
      (by decide) (by decide)⟩

/-! ### validate_external_command_request (lib.rs 1116-1193) -/

inductive AppError
  | Validation (message : String)
  | Conflict (message : String)
  | NotFound (message : String)
  | Pty (message : String)
  | Git (message : String)
  | System (message : String)
deriving DecidableEq, Repr

/-- `fmt::Display for AppError` (lib.rs 96-106). -/
def appErrorDisplay : AppError → String
  | .Validation message => "validation error: " ++ message
  | .Conflict message => "conflict error: " ++ message
  | .NotFound message => "not found error: " ++ message
  | .Pty message => "pty error: " ++ message
  | .Git message => "git error: " ++ message
  | .System message => "system error: " ++ message

/-- Embedding of `workspace_for_automation` (lib.rs 1327-1339); the
registry read lock is not modelled (the embedding is single-threaded). -/
def workspace_for_automation (registry : WorkspaceRegistry)
    (workspace_id : Str) : Except AppError AutomationWorkspaceSnapshot :=
  match mapLookup registry workspace_id with
  | some snapshot => .ok snapshot
  | none =>
    .error (.NotFound
      ("workspace `" ++ String.mk workspace_id ++ "` is not open"))

/-- The `resolve_workspace` closure inside
`validate_external_command_request` (lib.rs 1120-1129). -/
def resolveWorkspace (registry : WorkspaceRegistry) (workspace_id : Str) :
    Except HttpError AutomationWorkspaceSnapshot :=
  if trim workspace_id = [] then
    .error ⟨400, "workspaceId is required"⟩
  else
    match workspace_for_automation registry workspace_id with
    | .ok snapshot => .ok snapshot
    | .error (.NotFound message) => .error ⟨404, message⟩
    | .error e => .error ⟨500, appErrorDisplay e⟩

/-- Embedding of `validate_external_command_request`. -/
def validate_external_command_request (registry : WorkspaceRegistry)
    (request : ExternalCommandRequest) : Except HttpError Unit :=
  match request with
  | .CreatePanes workspace_id pane_count =>
    match resolveWorkspace registry workspace_id with
    | .error e => .error e
    | .ok _ =>
      if pane_count < 1 ∨ pane_count > 16 then
        .error ⟨400, "paneCount must be between 1 and 16, received " ++
          toString pane_count⟩
      else .ok ()
  | .CreateWorktree workspace_id _ branch _ _ =>
    match resolveWorkspace registry workspace_id with
    | .error e => .error e
    | .ok _ =>
      if trim branch = [] then .error ⟨400, "branch is required"⟩
      else .ok ()
  | .CreateBranch workspace_id branch _ _ =>
    match resolveWorkspace registry workspace_id with
    | .error e => .error e
    | .ok _ =>
      if trim branch = [] then .error ⟨400, "branch is required"⟩
      else .ok ()
  | .RunCommand workspace_id command _ =>
    match resolveWorkspace registry workspace_id with
    | .error e => .error e
    | .ok workspace =>
      if workspace.runtime_pane_ids = [] then
        .error ⟨409, "workspace has no active panes to run commands"⟩
      else
        let command := trim command
        if command = [] then .error ⟨400, "command is required"⟩
        else if strByteLen command > AUTOMATION_MAX_COMMAND_BYTES then
          .error ⟨400, "command is too large (max 16384 bytes)"⟩
        else .ok ()

def requestWorkspaceId : ExternalCommandRequest → Str
  | .CreatePanes workspace_id _ => workspace_id
  | .CreateWorktree workspace_id _ _ _ _ => workspace_id
  | .CreateBranch workspace_id _ _ _ => workspace_id
  | .RunCommand workspace_id _ _ => workspace_id

/-- Registry with one workspace (one runtime pane) for concrete checks. -/
def exampleWorkspaceRegistry : WorkspaceRegistry :=
  [("w1".data,
    { workspace_id := "w1".data, name := "Main".data,
      repo_root := "/repo".data, worktree_path := "/repo".data,
      runtime_pane_ids := ["p1".data] })]

/-- A command of 16385 bytes whose trimmed form is 16384 bytes. -/
def exampleLongCommand : Str := List.replicate 16384 'a' ++ [' ']

theorem trim_long_command (n : Nat) :
    trim (List.replicate (n + 1) 'a' ++ [' ']) = List.replicate (n + 1) 'a' := by
  have ha : ('a').isWhitespace = false := by decide
  have h1 : trimStart (List.replicate (n + 1) 'a' ++ [' ']) =
      List.replicate (n + 1) 'a' ++ [' '] := by
    rw [trimStart, List.replicate_succ, List.cons_append,
      List.dropWhile_cons, ha]
    simp
  rw [trim, h1, trimEnd, List.reverse_append, List.reverse_replicate]
  have h2 : ([' '] : Str).reverse = [' '] := rfl
  rw [h2, List.singleton_append, List.dropWhile_cons]
  have hsp : (' ').isWhitespace = true := by decide
  rw [hsp]
  simp only [if_true]
  rw [List.replicate_succ, List.dropWhile_cons, ha]
  simp only [Bool.false_eq_true, if_false, List.reverse_cons,
    List.reverse_replicate]
  rw [← List.replicate_succ', ← List.replicate_succ]

theorem strByteLen_replicate_a (n : Nat) :
    strByteLen (List.replicate n 'a') = n := by
  have h1 : charUtf8Len 'a' = 1 := by decide
  rw [strByteLen, List.map_replicate, h1, List.sum_replicate, smul_eq_mul,
    Nat.mul_one]

theorem strByteLen_long : strByteLen exampleLongCommand = 16385 := by
  rw [exampleLongCommand, strByteLen, List.map_append, List.sum_append,
    ← strByteLen, strByteLen_replicate_a]
  rfl

theorem validate_resolve_ok (registry : WorkspaceRegistry)
    (workspace_id : Str) (snap : AutomationWorkspaceSnapshot)
    (hwid : trim workspace_id ≠ [])
    (hlook : mapLookup registry workspace_id = some snap) :
    resolveWorkspace registry workspace_id = .ok snap := by
  unfold resolveWorkspace workspace_for_automation
  rw [if_neg hwid, hlook]

theorem validate_resolve_unknown (registry : WorkspaceRegistry)
    (workspace_id : Str) (hwid : trim workspace_id ≠ [])
    (hlook : mapLookup registry workspace_id = none) :
    resolveWorkspace registry workspace_id =
      .error ⟨404, "workspace `" ++ String.mk workspace_id ++
        "` is not open"⟩ := by
  unfold resolveWorkspace workspace_for_automation
  rw [if_neg hwid, hlook]

theorem validate_resolve_empty (registry : WorkspaceRegistry)
    (workspace_id : Str) (hwid : trim workspace_id = []) :
    resolveWorkspace registry workspace_id =
      .error ⟨400, "workspaceId is required"⟩ := by
  unfold resolveWorkspace
  rw [if_pos hwid]

theorem validate_run_ok (registry : WorkspaceRegistry) (workspace_id : Str)
    (command : Str) (execute : Option Bool)
    (snap : AutomationWorkspaceSnapshot) (hwid : trim workspace_id ≠ [])
    (hlook : mapLookup registry workspace_id = some snap)
    (hpanes : snap.runtime_pane_ids ≠ []) (hcmd : trim command ≠ [])
    (hsize : strByteLen (trim command) ≤ AUTOMATION_MAX_COMMAND_BYTES) :
    validate_external_command_request registry
      (.RunCommand workspace_id command execute) = .ok () := by
  unfold validate_external_command_request
  simp only []
  rw [validate_resolve_ok registry workspace_id snap hwid hlook]
  simp only []
  rw [if_neg hpanes, if_neg hcmd, if_neg (by omega)]

/-- C3 counterexample: two points where the claim misstates the code.
First, an empty workspace_id is unknown (the registry is empty) yet yields
400, not 404.  Second, a RunCommand whose command is 16385 bytes long —
longer than 16 KiB — is accepted, because the length check runs on the
trimmed command. -/
theorem validate_external_command_request_counterexample :
    (mapLookup ([] : WorkspaceRegistry) "".data = none ∧
     validate_external_command_request [] (.CreatePanes "".data 2) =
       .error ⟨400, "workspaceId is required"⟩) ∧
    (strByteLen exampleLongCommand > 16384 ∧
     validate_external_command_request exampleWorkspaceRegistry
       (.RunCommand "w1".data exampleLongCommand (some true)) = .ok ()) := by
  have htrim : trim exampleLongCommand = List.replicate 16384 'a' := by
    rw [exampleLongCommand, show (16384 : Nat) = 16383 + 1 from rfl]
    exact trim_long_command 16383
  refine ⟨⟨rfl, ?_⟩, ?_, ?_⟩
  · unfold validate_external_command_request
    simp only []
    rw [validate_resolve_empty [] "".data rfl]
  · rw [strByteLen_long]
    norm_num
  · refine validate_run_ok exampleWorkspaceRegistry "w1".data
      exampleLongCommand (some true) _ (by decide) rfl (by decide) ?_ ?_
    · rw [htrim]
      intro hc
      have hlc := congrArg List.length hc
      rw [List.length_replicate, List.length_nil] at hlc
      exact absurd hlc (by norm_num)
    · rw [htrim, strByteLen_replicate_a, AUTOMATION_MAX_COMMAND_BYTES]

/-- C3 (amended): validation of an ExternalCommandRequest yields exactly
the coded status codes: a workspace_id empty after trimming yields 400; a
nonempty unknown workspace_id yields 404; CreatePanes with pane_count
outside 1..=16 yields 400; CreateWorktree/CreateBranch with a branch empty
after trimming yields 400; RunCommand against a workspace with no runtime
pane ids yields 409, with a command empty after trimming yields 400, and
with a trimmed command longer than 16 KiB yields 400; a request passing
all these checks is accepted. -/
theorem validate_external_command_request_spec
    (registry : WorkspaceRegistry) :
    (∀ request, trim (requestWorkspaceId request) = [] →
      validate_external_command_request registry request =
        .error ⟨400, "workspaceId is required"⟩) ∧
    (∀ request, trim (requestWorkspaceId request) ≠ [] →
      mapLookup registry (requestWorkspaceId request) = none →
      validate_external_command_request registry request =
        .error ⟨404, "workspace `" ++
          String.mk (requestWorkspaceId request) ++ "` is not open"⟩) ∧
    (∀ wid pc snap, trim wid ≠ [] → mapLookup registry wid = some snap →
      pc < 1 ∨ pc > 16 →
      validate_external_command_request registry (.CreatePanes wid pc) =
        .error ⟨400, "paneCount must be between 1 and 16, received " ++
          toString pc⟩) ∧
    (∀ wid pc snap, trim wid ≠ [] → mapLookup registry wid = some snap →
      1 ≤ pc → pc ≤ 16 →
      validate_external_command_request registry (.CreatePanes wid pc) =
        .ok ()) ∧
    (∀ wid mode branch base opn snap, trim wid ≠ [] →
      mapLookup registry wid = some snap → trim branch = [] →
      validate_external_command_request registry
        (.CreateWorktree wid mode branch base opn) =
        .error ⟨400, "branch is required"⟩) ∧
    (∀ wid mode branch base opn snap, trim wid ≠ [] →
      mapLookup registry wid = some snap → trim branch ≠ [] →
      validate_external_command_request registry
        (.CreateWorktree wid mode branch base opn) = .ok ()) ∧
    (∀ wid branch base chk snap, trim wid ≠ [] →
      mapLookup registry wid = some snap → trim branch = [] →
      validate_external_command_request registry
        (.CreateBranch wid branch base chk) =
        .error ⟨400, "branch is required"⟩) ∧
    (∀ wid branch base chk snap, trim wid ≠ [] →
      mapLookup registry wid = some snap → trim branch ≠ [] →
      validate_external_command_request registry
        (.CreateBranch wid branch base chk) = .ok ()) ∧
    (∀ wid cmd ex snap, trim wid ≠ [] →
      mapLookup registry wid = some snap → snap.runtime_pane_ids = [] →
      validate_external_command_request registry
        (.RunCommand wid cmd ex) =
        .error ⟨409, "workspace has no active panes to run commands"⟩) ∧
    (∀ wid cmd ex snap, trim wid ≠ [] →
      mapLookup registry wid = some snap → snap.runtime_pane_ids ≠ [] →
      trim cmd = [] →
      validate_external_command_request registry (.RunCommand wid cmd ex) =
        .error ⟨400, "command is required"⟩) ∧
    (∀ wid cmd ex snap, trim wid ≠ [] →
      mapLookup registry wid = some snap → snap.runtime_pane_ids ≠ [] →
      trim cmd ≠ [] →
      strByteLen (trim cmd) > AUTOMATION_MAX_COMMAND_BYTES →
      validate_external_command_request registry (.RunCommand wid cmd ex) =
        .error ⟨400, "command is too large (max 16384 bytes)"⟩) ∧
    (∀ wid cmd ex snap, trim wid ≠ [] →
      mapLookup registry wid = some snap → snap.runtime_pane_ids ≠ [] →
      trim cmd ≠ [] →
      strByteLen (trim cmd) ≤ AUTOMATION_MAX_COMMAND_BYTES →
      validate_external_command_request registry (.RunCommand wid cmd ex) =
        .ok ()) := by
  refine ⟨?_, ?_, ?_, ?_, ?_, ?_, ?_, ?_, ?_, ?_, ?_, ?_⟩
  · intro request h
    cases request <;>
      (simp only [requestWorkspaceId] at h
       unfold validate_external_command_request
       simp only []
       rw [validate_resolve_empty registry _ h])
  · intro request h hlook
    cases request <;>
      (simp only [requestWorkspaceId] at h hlook
       unfold validate_external_command_request
       simp only []
       rw [validate_resolve_unknown registry _ h hlook]
       simp [requestWorkspaceId])
  · intro wid pc snap hwid hlook hrange
    unfold validate_external_command_request
    simp only []
    rw [validate_resolve_ok registry wid snap hwid hlook]
    simp only []
    rw [if_pos hrange]
  · intro wid pc snap hwid hlook h1 h16
    unfold validate_external_command_request
    simp only []
    rw [validate_resolve_ok registry wid snap hwid hlook]
    simp only []
    rw [if_neg (by omega)]
  · intro wid mode branch base opn snap hwid hlook hbr
    unfold validate_external_command_request
    simp only []
    rw [validate_resolve_ok registry wid snap hwid hlook]
    simp only []
    rw [if_pos hbr]
  · intro wid mode branch base opn snap hwid hlook hbr
    unfold validate_external_command_request
    simp only []
    rw [validate_resolve_ok registry wid snap hwid hlook]
    simp only []
    rw [if_neg hbr]
  · intro wid branch base chk snap hwid hlook hbr
    unfold validate_external_command_request
    simp only []
    rw [validate_resolve_ok registry wid snap hwid hlook]
    simp only []
    rw [if_pos hbr]
  · intro wid branch base chk snap hwid hlook hbr
    unfold validate_external_command_request
    simp only []
    rw [validate_resolve_ok registry wid snap hwid hlook]
    simp only []
    rw [if_neg hbr]
  · intro wid cmd ex snap hwid hlook hpanes
    unfold validate_external_command_request
    simp only []
    rw [validate_resolve_ok registry wid snap hwid hlook]
    simp only []
    rw [if_pos hpanes]
  · intro wid cmd ex snap hwid hlook hpanes hcmd
    unfold validate_external_command_request
    simp only []
    rw [validate_resolve_ok registry wid snap hwid hlook]
    simp only []
    rw [if_neg hpanes, if_pos hcmd]
  · intro wid cmd ex snap hwid hlook hpanes hcmd hsize
    unfold validate_external_command_request
    simp only []
    rw [validate_resolve_ok registry wid snap hwid hlook]
    simp only []
    rw [if_neg hpanes, if_neg hcmd, if_pos hsize]
  · intro wid cmd ex snap hwid hlook hpanes hcmd hsize
    exact validate_run_ok registry wid cmd ex snap hwid hlook hpanes hcmd
      hsize

/-- Witness for C3: concrete requests against the example registry hit the
404, 400 and accepted paths. -/
theorem validate_external_command_request_spec_witness :
    validate_external_command_request exampleWorkspaceRegistry
      (.CreatePanes "missing".data 2) =
      .error ⟨404, "workspace `" ++ String.mk "missing".data ++
        "` is not open"⟩ ∧
    validate_external_command_request exampleWorkspaceRegistry
      (.CreatePanes "w1".data 0) =
      .error ⟨400, "paneCount must be between 1 and 16, received " ++
        toString 0⟩ ∧
    validate_external_command_request exampleWorkspaceRegistry
      (.CreatePanes "w1".data 3) = .ok () :=
  ⟨(validate_external_command_request_spec exampleWorkspaceRegistry).2.1
      (.CreatePanes "missing".data 2) (by decide) rfl,
   (validate_external_command_request_spec exampleWorkspaceRegistry).2.2.1
      "w1".data 0 _ (by decide) rfl (by omega),
   (validate_external_command_request_spec exampleWorkspaceRegistry).2.2.2.1
      "w1".data 3 _ (by decide) rfl (by omega) (by omega)⟩

/-! ### parse_worktree_porcelain (lib.rs 3910-3972) -/

structure ParsedWorktreeEntry where
  branch : Str
  worktree_path : Str
  head : Str
  is_detached : Bool
  is_locked : Bool
  lock_reason : Option Str
  is_prunable : Bool
  prune_reason : Option Str
deriving DecidableEq, Repr

/-- The entry created for a `worktree <path>` header line (lib.rs
3919-3928): note branch starts out as the literal string "detached" while
is_detached starts out false. -/
def freshWorktreeEntry (path : Str) : ParsedWorktreeEntry :=
  { branch := "detached".data, worktree_path := path, head := [],
    is_detached := false, is_locked := false, lock_reason := none,
    is_prunable := false, prune_reason := none }

/-- Processing of one non-header line inside a group (lib.rs 3936-3964). -/
def worktreeProcessLine (entry : ParsedWorktreeEntry) (line : Str) :
    ParsedWorktreeEntry :=
  match stripPfx "HEAD ".data line with
  | some head => { entry with head := head }
  | none =>
    match stripPfx "branch refs/heads/".data line with
    | some branch => { entry with branch := branch, is_detached := false }
    | none =>
      if line = "detached".data then
        { entry with branch := "detached".data, is_detached := true }
      else
        match stripPfx "locked".data line with
        | some reason =>
          let value := trim reason
          { entry with
            is_locked := true
            lock_reason :=
              if value = [] then entry.lock_reason else some value }
        | none =>
          match stripPfx "prunable".data line with
          | some reason =>
            let value := trim reason
            { entry with
              is_prunable := true
              prune_reason :=
                if value = [] then entry.prune_reason else some value }
          | none => entry

/-- One iteration of the line loop: a `worktree ` header flushes the
current entry and opens a fresh one; any other line mutates the current
entry when one is open and is skipped otherwise. -/
def worktreeFoldStep
    (state : List ParsedWorktreeEntry × Option ParsedWorktreeEntry)
    (line : Str) :
    List ParsedWorktreeEntry × Option ParsedWorktreeEntry :=
  match stripPfx "worktree ".data line with
  | some path =>
    match state.2 with
    | some prev => (state.1 ++ [prev], some (freshWorktreeEntry path))
    | none => (state.1, some (freshWorktreeEntry path))
  | none =>
    match state.2 with
    | none => state
    | some entry => (state.1, some (worktreeProcessLine entry line))

/-- The final flush: `if let Some(prev) = current` (lib.rs 3967-3969). -/
def flushWorktreeState
    (state : List ParsedWorktreeEntry × Option ParsedWorktreeEntry) :
    List ParsedWorktreeEntry :=
  match state.2 with
  | some prev => state.1 ++ [prev]
  | none => state.1

/-- The loop over the lines plus the final flush. -/
def parseWorktreeLines (lines : List Str) : List ParsedWorktreeEntry :=
  flushWorktreeState (lines.foldl worktreeFoldStep ([], none))

/-- Model of Rust `str::lines`: split on newlines (a final trailing newline
produces no empty line) and strip one trailing carriage return per line. -/
def strLines (s : Str) : List Str :=
  let pieces := splitChar '\n' s
  let pieces :=
    match pieces.getLast? with
    | some l => if l = [] then pieces.dropLast else pieces
    | none => pieces
  pieces.map fun line =>
    match line.getLast? with
    | some c => if c = '\r' then line.dropLast else line
    | none => line

/-- Embedding of `parse_worktree_porcelain`. -/
def parse_worktree_porcelain (stdout : Str) : List ParsedWorktreeEntry :=
  parseWorktreeLines (strLines stdout)

/-- Joining lines with newlines, the inverse of `strLines` on line lists
without embedded newlines. -/
def joinLines : List Str → Str
  | [] => []
  | [l] => l
  | l :: rest => l ++ '\n' :: joinLines rest

/-! ### Lemmas for the worktree parser -/

theorem stripPfx_append (p s : Str) : stripPfx p (p ++ s) = some s := by
  rw [stripPfx, if_pos]
  · rw [List.drop_left]
  · rw [List.isPrefixOf_iff_prefix]
    exact List.prefix_append p s

theorem splitChar_not_mem (c : Char) (a : Str) (h : c ∉ a) :
    splitChar c a = [a] := by
  induction a with
  | nil => rfl
  | cons x xs ih =>
    rw [splitChar]
    rw [if_neg (fun hc => h (by rw [← hc]; exact List.mem_cons_self x xs))]
    rw [ih (fun hc => h (List.mem_cons_of_mem x hc))]

theorem splitChar_sep (c : Char) (a t : Str) (h : c ∉ a) :
    splitChar c (a ++ c :: t) = a :: splitChar c t := by
  induction a with
  | nil =>
    rw [List.nil_append, splitChar, if_pos rfl]
  | cons x xs ih =>
    rw [List.cons_append, splitChar]
    rw [if_neg (fun hc => h (by rw [← hc]; exact List.mem_cons_self x xs))]
    rw [ih (fun hc => h (List.mem_cons_of_mem x hc))]

theorem splitChar_joinLines (ls : List Str) (hls : ls ≠ [])
    (hnl : ∀ l ∈ ls, ('\n') ∉ l) :
    splitChar '\n' (joinLines ls) = ls := by
  induction ls with
  | nil => exact absurd rfl hls
  | cons l rest ih =>
    cases rest with
    | nil =>
      rw [joinLines]
      exact splitChar_not_mem '\n' l (hnl l (List.mem_cons_self _ _))
    | cons l2 rest2 =>
      rw [joinLines, splitChar_sep '\n' l _
        (hnl l (List.mem_cons_self _ _))]
      have hih := ih (List.cons_ne_nil l2 rest2)
        (fun x hx => hnl x (List.mem_cons_of_mem _ hx))
      rw [hih]
      exact fun hc => List.noConfusion hc

theorem strLines_joinLines (ls : List Str)
    (hnl : ∀ l ∈ ls, ('\n') ∉ l)
    (hcr : ∀ l ∈ ls, l.getLast? ≠ some '\r')
    (hlast : ls.getLast? ≠ some []) :
    strLines (joinLines ls) = ls := by
  cases hl : ls with
  | nil => rfl
  | cons l0 rest0 =>
    subst hl
    rw [strLines]
    rw [splitChar_joinLines _ (List.cons_ne_nil _ _) hnl]
    have hdrop :
        (match (l0 :: rest0).getLast? with
          | some l => if l = [] then (l0 :: rest0).dropLast
            else l0 :: rest0
          | none => l0 :: rest0) = l0 :: rest0 := by
      cases hg : (l0 :: rest0).getLast? with
      | none => simp at hg
      | some last =>
        simp only []
        rw [if_neg]
        intro hc
        rw [hc] at hg
        exact hlast hg
    rw [hdrop]
    have hmap : ∀ l ∈ l0 :: rest0,
        (match l.getLast? with
          | some c => if c = '\r' then l.dropLast else l
          | none => l) = l := by
      intro l hmem
      cases hg : l.getLast? with
      | none => rfl
      | some c =>
        simp only []
        rw [if_neg]
        intro hc
        rw [hc] at hg
        exact hcr l hmem hg
    calc (l0 :: rest0).map _ = (l0 :: rest0).map id := by
          exact List.map_congr_left (fun l hmem => hmap l hmem)
      _ = l0 :: rest0 := List.map_id _

theorem worktreeProcessLine_preserves (entry : ParsedWorktreeEntry)
    (line : Str)
    (hnb : stripPfx "branch refs/heads/".data line = none)
    (hnd : line ≠ "detached".data) :
    (worktreeProcessLine entry line).branch = entry.branch ∧
    (worktreeProcessLine entry line).is_detached = entry.is_detached ∧
    (worktreeProcessLine entry line).worktree_path =
      entry.worktree_path := by
  unfold worktreeProcessLine
  cases h1 : stripPfx "HEAD ".data line with
  | some head => simp
  | none =>
    rw [hnb]
    simp only []
    rw [if_neg hnd]
    cases h2 : stripPfx "locked".data line with
    | some reason => simp
    | none =>
      cases h3 : stripPfx "prunable".data line with
      | some reason => simp
      | none => simp

theorem foldStep_entries_mono (lines : List Str)
    (st : List ParsedWorktreeEntry × Option ParsedWorktreeEntry)
    (x : ParsedWorktreeEntry) (hx : x ∈ st.1) :
    x ∈ flushWorktreeState (lines.foldl worktreeFoldStep st) := by
  induction lines generalizing st with
  | nil =>
    rw [List.foldl_nil, flushWorktreeState]
    cases st.2 with
    | some prev => exact List.mem_append_left _ hx
    | none => exact hx
  | cons l rest ih =>
    rw [List.foldl_cons]
    apply ih
    rw [worktreeFoldStep]
    cases h1 : stripPfx "worktree ".data l with
    | some path =>
      cases h2 : st.2 with
      | some prev =>
        simp only []
        exact List.mem_append_left _ hx
      | none => exact hx
    | none =>
      cases h2 : st.2 with
      | some entry => exact hx
      | none => exact hx

theorem current_mem_flush (post : List Str)
    (st : List ParsedWorktreeEntry × Option ParsedWorktreeEntry)
    (e : ParsedWorktreeEntry) (hcur : st.2 = some e)
    (hpost : post = [] ∨
      ∃ p rest, post = ("worktree ".data ++ p) :: rest) :
    e ∈ flushWorktreeState (post.foldl worktreeFoldStep st) := by
  rcases hpost with rfl | ⟨p, rest, rfl⟩
  · rw [List.foldl_nil, flushWorktreeState, hcur]
    exact List.mem_append_right _ (List.mem_singleton.mpr rfl)
  · rw [List.foldl_cons]
    apply foldStep_entries_mono
    rw [worktreeFoldStep, stripPfx_append, hcur]
    simp only []
    exact List.mem_append_right _ (List.mem_singleton.mpr rfl)

theorem foldl_body_current (body : List Str)
    (hbody : ∀ l ∈ body, stripPfx "worktree ".data l = none ∧
      stripPfx "branch refs/heads/".data l = none ∧
      l ≠ "detached".data) :
    ∀ (E : List ParsedWorktreeEntry) (e : ParsedWorktreeEntry),
      ∃ e', body.foldl worktreeFoldStep (E, some e) = (E, some e') ∧
        e'.branch = e.branch ∧ e'.is_detached = e.is_detached ∧
        e'.worktree_path = e.worktree_path := by
  induction body with
  | nil =>
    intro E e
    exact ⟨e, rfl, rfl, rfl, rfl⟩
  | cons l rest ih =>
    intro E e
    obtain ⟨hw, hb, hd⟩ := hbody l (List.mem_cons_self _ _)
    have hstep : worktreeFoldStep (E, some e) l =
        (E, some (worktreeProcessLine e l)) := by
      rw [worktreeFoldStep, hw]
    obtain ⟨e', he', h1, h2, h3⟩ :=
      ih (fun x hx => hbody x (List.mem_cons_of_mem _ hx)) E
        (worktreeProcessLine e l)
    obtain ⟨p1, p2, p3⟩ := worktreeProcessLine_preserves e l hb hd
    rw [List.foldl_cons, hstep]
    exact ⟨e', he', by rw [h1, p1], by rw [h2, p2], by rw [h3, p3]⟩

theorem parseWorktreeLines_group (pre body post : List Str) (path : Str)
    (hbody : ∀ l ∈ body, stripPfx "worktree ".data l = none ∧
      stripPfx "branch refs/heads/".data l = none ∧
      l ≠ "detached".data)
    (hpost : post = [] ∨
      ∃ p rest, post = ("worktree ".data ++ p) :: rest) :
    ∃ e ∈ parseWorktreeLines
        (pre ++ ("worktree ".data ++ path) :: (body ++ post)),
      e.worktree_path = path ∧ e.branch = "detached".data ∧
        e.is_detached = false := by
  rw [parseWorktreeLines, List.foldl_append, List.foldl_cons]
  set st0 := pre.foldl worktreeFoldStep ([], none) with hst0
  have hstep : worktreeFoldStep st0 ("worktree ".data ++ path) =
      (flushWorktreeState st0, some (freshWorktreeEntry path)) := by
    rw [worktreeFoldStep, stripPfx_append, flushWorktreeState]
    cases h2 : st0.2 with
    | some prev => rfl
    | none => rfl
  rw [hstep, List.foldl_append]
  obtain ⟨e', he', h1, h2, h3⟩ := foldl_body_current body hbody
    (flushWorktreeState st0) (freshWorktreeEntry path)
  rw [he']
  refine ⟨e', current_mem_flush post _ e' rfl hpost, ?_, ?_, ?_⟩
  · rw [h3]
    rfl
  · rw [h1]
    rfl
  · rw [h2]
    rfl

/-! ### Claim C10: headless worktree groups -/

/-- C10: in any `git worktree list --porcelain` output, a group introduced
by a `worktree <path>` header whose lines contain neither a
`branch refs/heads/...` line nor a `detached` line parses to an entry with
branch equal to the literal string "detached" while is_detached is false —
so branch = "detached" does not imply the detached flag. -/
theorem parse_worktree_porcelain_detached_default
    (pre body post : List Str) (path : Str)
    (hnl : ∀ l ∈ pre ++ ("worktree ".data ++ path) :: (body ++ post),
      ('\n') ∉ l)
    (hcr : ∀ l ∈ pre ++ ("worktree ".data ++ path) :: (body ++ post),
      l.getLast? ≠ some '\r')
    (hlast : (pre ++ ("worktree ".data ++ path) ::
      (body ++ post)).getLast? ≠ some [])
    (hbody : ∀ l ∈ body, stripPfx "worktree ".data l = none ∧
      stripPfx "branch refs/heads/".data l = none ∧
      l ≠ "detached".data)
    (hpost : post = [] ∨
      ∃ p rest, post = ("worktree ".data ++ p) :: rest) :
    ∃ e ∈ parse_worktree_porcelain (joinLines
        (pre ++ ("worktree ".data ++ path) :: (body ++ post))),
      e.worktree_path = path ∧ e.branch = "detached".data ∧
        e.is_detached = false := by
  rw [parse_worktree_porcelain, strLines_joinLines _ hnl hcr hlast]
  exact parseWorktreeLines_group pre body post path hbody hpost

/-- Witness for C10: a group with only a HEAD line and a locked line. -/
theorem parse_worktree_porcelain_detached_default_witness :
    ∃ e ∈ parse_worktree_porcelain (joinLines
        ([] ++ ("worktree ".data ++ "/tmp/wt".data) ::
          (["HEAD abc".data, "locked".data] ++ []))),
      e.worktree_path = "/tmp/wt".data ∧ e.branch = "detached".data ∧
        e.is_detached = false :=
  parse_worktree_porcelain_detached_default []
    ["HEAD abc".data, "locked".data] [] "/tmp/wt".data (by decide)
    (by decide) (by decide) (by decide) (Or.inl rfl)

/-! ### Claim C8: parse_branch_header (lib.rs lines 860-896) -/

/-- Numeric value of an all-digit string, the value accumulated by
`digitsVal?`. -/
def digitsValue (s : Str) : Nat :=
  s.foldl (fun acc c => acc * 10 + (c.toNat - 48)) 0

/-- One `split(',')` piece of the tracking bracket, modelling the closure in
`parse_branch_header`: trim the piece, then an `ahead ` prefix replaces the
ahead count and a `behind ` prefix replaces the behind count, each value parsed
with `trim().parse::<u32>().unwrap_or(0)`. -/
def applyTrackingPiece (ab : Nat × Nat) (piece : Str) : Nat × Nat :=
  match stripPfx "ahead ".data (trim piece) with
  | some value => ((parseU32 (trim value)).getD 0, ab.2)
  | none =>
    match stripPfx "behind ".data (trim piece) with
    | some value => (ab.1, (parseU32 (trim value)).getD 0)
    | none => ab

/-- Embedding of `parse_branch_header`: strip a leading `## `, trim, split at
the first `...` into branch and remainder, split the remainder at the first
` [` into upstream and tracking bracket (trailing `]` characters stripped,
then trimmed), and fold the comma-separated tracking pieces; with no `...`
the part before any ` [` is the branch and ahead/behind stay 0. -/
def parse_branch_header (line : Str) : Str × Option Str × Nat × Nat :=
  match splitOnce "...".data (trim ((stripPfx "## ".data line).getD line)) with
  | some (left, right) =>
    match splitOnce " [".data right with
    | some (upstream_raw, tracking_raw) =>
      (trim left,
        if trim upstream_raw = [] then none else some (trim upstream_raw),
        ((splitChar ',' (trim (trimEndMatches ']' tracking_raw))).foldl
          applyTrackingPiece (0, 0)).1,
        ((splitChar ',' (trim (trimEndMatches ']' tracking_raw))).foldl
          applyTrackingPiece (0, 0)).2)
    | none =>
      (trim left,
        if trim right = [] then none else some (trim right), 0, 0)
  | none =>
    match splitOnce " [".data (trim ((stripPfx "## ".data line).getD line)) with
    | some (left, _) => (trim left, none, 0, 0)
    | none => (trim ((stripPfx "## ".data line).getD line), none, 0, 0)

/-- The pattern `pat` does not occur in `s` at any position before `n`; used
to pin down where `split_once` cuts a header apart. -/
def noOccurBefore (pat s : Str) (n : Nat) : Prop :=
  ∀ i < n, pat.isPrefixOf (s.drop i) = false

instance noOccurBeforeDecidable (pat s : Str) (n : Nat) :
    Decidable (noOccurBefore pat s n) :=
  inferInstanceAs (Decidable (∀ i < n, pat.isPrefixOf (s.drop i) = false))

theorem head_not_ws {c : Char} {s : Str} (h : trimStart (c :: s) = c :: s) :
    c.isWhitespace = false := by
  by_contra hw
  rw [Bool.not_eq_false] at hw
  rw [trimStart, List.dropWhile_cons, if_pos hw] at h
  have hlen := congrArg List.length h
  have hle := (List.dropWhile_sublist (l := s) Char.isWhitespace).length_le
  simp at hlen
  omega

theorem trimStart_cons_nws {c : Char} (s : Str) (hc : c.isWhitespace = false) :
    trimStart (c :: s) = c :: s := by
  rw [trimStart, List.dropWhile_cons, hc]
  rfl

theorem trimEnd_concat_nws {d : Char} (s : Str) (hd : d.isWhitespace = false) :
    trimEnd (s ++ [d]) = s ++ [d] := by
  have h1 : (s ++ [d]).reverse = d :: s.reverse := by simp
  rw [trimEnd, h1, List.dropWhile_cons, hd]
  simp

theorem trimStart_eq_of_trim {s : Str} (h : trim s = s) : trimStart s = s := by
  have h1 : trimStart s <:+ s :=
    ⟨s.takeWhile Char.isWhitespace,
      List.takeWhile_append_dropWhile Char.isWhitespace s⟩
  have h2 : (trimEnd (trimStart s)).length ≤ (trimStart s).length :=
    (trimEnd_isPrefix (trimStart s)).length_le
  have h3 : trimEnd (trimStart s) = s := h
  have h4 : (trimStart s).length ≤ s.length := h1.length_le
  have hlen : (trimStart s).length = s.length := by
    have h5 := congrArg List.length h3
    omega
  exact h1.eq_of_length hlen

theorem trimEnd_eq_of_trim {s : Str} (h : trim s = s) : trimEnd s = s := by
  have h1 := trimStart_eq_of_trim h
  have h2 : trimEnd (trimStart s) = s := h
  rwa [h1] at h2

theorem exists_head_not_ws {s : Str} (hs : trimStart s = s) (hne : s ≠ []) :
    ∃ c t, s = c :: t ∧ c.isWhitespace = false := by
  cases s with
  | nil => exact absurd rfl hne
  | cons c t => exact ⟨c, t, rfl, head_not_ws hs⟩

theorem exists_last_not_ws {s : Str} (hs : trimEnd s = s) (hne : s ≠ []) :
    ∃ L d, s = L ++ [d] ∧ d.isWhitespace = false := by
  rcases List.eq_nil_or_concat s with h0 | ⟨L, d, hLd⟩
  · exact absurd h0 hne
  · rw [List.concat_eq_append] at hLd
    refine ⟨L, d, hLd, ?_⟩
    by_contra hw
    rw [Bool.not_eq_false] at hw
    rw [hLd, trimEnd] at hs
    have h1 : (L ++ [d]).reverse = d :: L.reverse := by simp
    rw [h1, List.dropWhile_cons, if_pos hw] at hs
    have hlen := congrArg List.length hs
    have hle := (List.dropWhile_sublist (l := L.reverse) Char.isWhitespace).length_le
    simp at hlen hle
    omega

theorem trim_eq_self_of_ends (c d : Char) (mid tail s : Str)
    (h1 : s = c :: mid) (h2 : s = tail ++ [d])
    (hc : c.isWhitespace = false) (hd : d.isWhitespace = false) :
    trim s = s := by
  have hts : trimStart s = s := by
    rw [h1]
    exact trimStart_cons_nws _ hc
  rw [trim, hts, h2]
  exact trimEnd_concat_nws _ hd

theorem trim_of_all_nws {s : Str} (h : ∀ c ∈ s, c.isWhitespace = false) :
    trim s = s := by
  rcases List.eq_nil_or_concat s with h0 | ⟨L, d, hLd⟩
  · rw [h0]
    rfl
  · rw [List.concat_eq_append] at hLd
    subst hLd
    have hts : trimStart (L ++ [d]) = L ++ [d] := by
      cases L with
      | nil => exact trimStart_cons_nws [] (h d (by simp))
      | cons x L' =>
        rw [List.cons_append]
        exact trimStart_cons_nws _ (h x (by simp))
    rw [trim, hts]
    exact trimEnd_concat_nws L (h d (by simp))

theorem trimEndMatches_concat {x d : Char} (init : Str) (hd : d ≠ x) :
    trimEndMatches x ((init ++ [d]) ++ [x]) = init ++ [d] := by
  have h1 : ((init ++ [d]) ++ [x]).reverse = x :: (d :: init.reverse) := by simp
  rw [trimEndMatches, h1]
  simp [hd]

theorem digit_not_ws {c : Char} (h : c.isDigit = true) :
    c.isWhitespace = false := by
  by_contra hw
  rw [Bool.not_eq_false] at hw
  have hcase : c = ' ' ∨ c = '\t' ∨ c = '\x0d' ∨ c = '\n' := by
    simpa [Char.isWhitespace, or_assoc] using hw
  rcases hcase with h1 | h1 | h1 | h1 <;> subst h1 <;> exact absurd h (by decide)

theorem digit_ne {c x : Char} (h : c.isDigit = true) (hx : x.isDigit = false) :
    c ≠ x := by
  intro hc
  rw [hc, hx] at h
  exact Bool.false_ne_true h

theorem digit_of_mem_all {s : Str} (h : s.all Char.isDigit = true) {c : Char}
    (hc : c ∈ s) : c.isDigit = true := by
  rw [List.all_eq_true] at h
  exact h c hc

theorem digits_concat {s : Str} (hd : s.all Char.isDigit = true) (hne : s ≠ []) :
    ∃ L e, s = L ++ [e] ∧ e.isDigit = true := by
  rcases List.eq_nil_or_concat s with h0 | ⟨L, e, hLe⟩
  · exact absurd h0 hne
  · rw [List.concat_eq_append] at hLe
    refine ⟨L, e, hLe, digit_of_mem_all hd ?_⟩
    rw [hLe]
    simp

theorem digitsVal?_eq_some {s : Str} (hne : s ≠ [])
    (hd : s.all Char.isDigit = true) :
    digitsVal? s = some (digitsValue s) := by
  rw [digitsVal?, if_neg hne, if_pos hd]
  rfl

theorem parseUnsigned_digits {bound : Nat} {c : Char} {cs : Str} (hcp : c ≠ '+')
    (hd : (c :: cs).all Char.isDigit = true)
    (hb : digitsValue (c :: cs) ≤ bound) :
    parseUnsigned bound (c :: cs) = some (digitsValue (c :: cs)) := by
  have hm : (match c :: cs with
      | '+' :: rest => rest
      | _ => c :: cs) = c :: cs := by
    split
    · next rest heq =>
        exact absurd (List.head_eq_of_cons_eq heq) hcp
    · rfl
  show (match digitsVal? (match c :: cs with
      | '+' :: rest => rest
      | _ => c :: cs) with
    | some v => if v ≤ bound then some v else none
    | none => none) = some (digitsValue (c :: cs))
  rw [hm, digitsVal?_eq_some (List.cons_ne_nil c cs) hd]
  show (if digitsValue (c :: cs) ≤ bound then some (digitsValue (c :: cs))
    else none) = _
  rw [if_pos hb]

theorem parseU32_digits {s : Str} (hd : s.all Char.isDigit = true)
    (hne : s ≠ []) (hb : digitsValue s ≤ 2 ^ 32 - 1) :
    parseU32 s = some (digitsValue s) := by
  cases s with
  | nil => exact absurd rfl hne
  | cons c cs =>
    have hc : c.isDigit = true := by
      rw [List.all_cons, Bool.and_eq_true] at hd
      exact hd.1
    exact parseUnsigned_digits (digit_ne hc (by decide)) hd hb

theorem splitOnce_first (pat pre post : Str)
    (h : ∀ i < pre.length,
      pat.isPrefixOf ((pre ++ (pat ++ post)).drop i) = false) :
    splitOnce pat (pre ++ (pat ++ post)) = some (pre, post) := by
  induction pre with
  | nil =>
    rw [List.nil_append]
    cases hs : pat ++ post with
    | nil =>
      rcases List.append_eq_nil.mp hs with ⟨hp, hq⟩
      subst hp
      subst hq
      rfl
    | cons c rest =>
      have hpre : pat.isPrefixOf (c :: rest) = true :=
        List.isPrefixOf_iff_prefix.mpr (hs ▸ List.prefix_append pat post)
      rw [splitOnce, if_pos hpre, ← hs, List.drop_left]
  | cons c pre' ih =>
    have h0 : pat.isPrefixOf (c :: (pre' ++ (pat ++ post))) = false := by
      have h00 := h 0 (by simp)
      rwa [List.drop_zero, List.cons_append] at h00
    have h' : ∀ i < pre'.length,
        pat.isPrefixOf ((pre' ++ (pat ++ post)).drop i) = false := by
      intro i hi
      have hii := h (i + 1) (by simp; omega)
      rwa [List.cons_append, List.drop_succ_cons] at hii
    rw [List.cons_append, splitOnce,
      if_neg (fun hc => Bool.false_ne_true (h0 ▸ hc)), ih h']
    rfl

theorem splitOnce_none_of_all (pat s : Str)
    (h : ∀ i, pat.isPrefixOf (s.drop i) = false) :
    splitOnce pat s = none := by
  induction s with
  | nil =>
    have h0 : pat.isPrefixOf ([] : Str) = false := by
      have h00 := h 0
      rwa [List.drop_zero] at h00
    rw [splitOnce, if_neg (fun hc => Bool.false_ne_true (h0 ▸ hc))]
  | cons c rest ih =>
    have h0 : pat.isPrefixOf (c :: rest) = false := by
      have h00 := h 0
      rwa [List.drop_zero] at h00
    have h' : ∀ i, pat.isPrefixOf (rest.drop i) = false := by
      intro i
      have h00 := h (i + 1)
      rwa [List.drop_succ_cons] at h00
    rw [splitOnce, if_neg (fun hc => Bool.false_ne_true (h0 ▸ hc)), ih h']
    rfl

theorem splitOnce_eq_none (pat s : Str) (hp : pat ≠ [])
    (h : ∀ i < s.length, pat.isPrefixOf (s.drop i) = false) :
    splitOnce pat s = none := by
  apply splitOnce_none_of_all
  intro i
  by_cases hi : i < s.length
  · exact h i hi
  · rw [List.drop_eq_nil_of_le (by omega)]
    cases pat with
    | nil => exact absurd rfl hp
    | cons p ps => rfl

theorem applyTrackingPiece_ahead (a b : Nat) (dx : Str)
    (hd : dx.all Char.isDigit = true) (hne : dx ≠ [])
    (hb : digitsValue dx ≤ 2 ^ 32 - 1) :
    applyTrackingPiece (a, b) ("ahead ".data ++ dx) = (digitsValue dx, b) := by
  obtain ⟨L, e, hLe, hed⟩ := digits_concat hd hne
  have htr : trim ("ahead ".data ++ dx) = "ahead ".data ++ dx := by
    refine trim_eq_self_of_ends 'a' e ("head ".data ++ dx)
      ("ahead ".data ++ L) _ rfl ?_ (by decide) (digit_not_ws hed)
    rw [hLe, List.append_assoc]
  have htdx : trim dx = dx :=
    trim_of_all_nws (fun ch hch => digit_not_ws (digit_of_mem_all hd hch))
  simp only [applyTrackingPiece, htr, stripPfx_append]
  rw [htdx, parseU32_digits hd hne hb]
  rfl

theorem applyTrackingPiece_behind (a b : Nat) (dy : Str)
    (hd : dy.all Char.isDigit = true) (hne : dy ≠ [])
    (hb : digitsValue dy ≤ 2 ^ 32 - 1) :
    applyTrackingPiece (a, b) (" behind ".data ++ dy) = (a, digitsValue dy) := by
  obtain ⟨L, e, hLe, hed⟩ := digits_concat hd hne
  have h1 : trimStart (" behind ".data ++ dy) = "behind ".data ++ dy := by
    show List.dropWhile Char.isWhitespace
      (' ' :: ("behind ".data ++ dy)) = "behind ".data ++ dy
    rw [List.dropWhile_cons, if_pos (by decide : (' ').isWhitespace = true)]
    exact trimStart_cons_nws ("ehind ".data ++ dy) (by decide)
  have htr : trim (" behind ".data ++ dy) = "behind ".data ++ dy := by
    rw [trim, h1, hLe, ← List.append_assoc]
    exact trimEnd_concat_nws _ (digit_not_ws hed)
  have hpf : ("ahead ".data).isPrefixOf ("behind ".data ++ dy) = false := rfl
  have hnA : stripPfx "ahead ".data (trim (" behind ".data ++ dy)) = none := by
    rw [htr, stripPfx, if_neg (fun hc => Bool.false_ne_true (hpf ▸ hc))]
  have htdy : trim dy = dy :=
    trim_of_all_nws (fun ch hch => digit_not_ws (digit_of_mem_all hd hch))
  simp only [applyTrackingPiece, hnA, htr, stripPfx_append]
  rw [htdy, parseU32_digits hd hne hb]
  rfl

/-- C8: a git status branch header `## branch...upstream [ahead X, behind Y]`
parses to exactly (branch, some upstream, X, Y), where branch and upstream are
trimmed and nonempty, X and Y are digit strings with u32 values, and the
separators `...` and ` [` first occur at their displayed positions; a header
`## branch...upstream` with no tracking bracket parses to
(branch, some upstream, 0, 0); a plain `## branch` header parses to
(branch, none, 0, 0). -/
theorem parse_branch_header_spec
    (branch upstream dx dy : Str)
    (hbr : trim branch = branch) (hbrne : branch ≠ [])
    (hup : trim upstream = upstream) (hupne : upstream ≠ [])
    (hdx : dx.all Char.isDigit = true) (hdxne : dx ≠ [])
    (hdy : dy.all Char.isDigit = true) (hdyne : dy ≠ [])
    (hbx : digitsValue dx ≤ 2 ^ 32 - 1) (hby : digitsValue dy ≤ 2 ^ 32 - 1)
    (hA1 : noOccurBefore "...".data
      (branch ++ ("...".data ++ (upstream ++ (" [ahead ".data ++
        (dx ++ (", behind ".data ++ (dy ++ "]".data))))))) branch.length)
    (hA2 : noOccurBefore " [".data
      (upstream ++ (" [ahead ".data ++ (dx ++ (", behind ".data ++
        (dy ++ "]".data))))) upstream.length)
    (hB1 : noOccurBefore "...".data (branch ++ ("...".data ++ upstream))
      branch.length)
    (hB2 : noOccurBefore " [".data upstream upstream.length)
    (hC1 : noOccurBefore "...".data branch branch.length)
    (hC2 : noOccurBefore " [".data branch branch.length) :
    parse_branch_header ("## ".data ++ (branch ++ ("...".data ++ (upstream ++
        (" [ahead ".data ++ (dx ++ (", behind ".data ++ (dy ++ "]".data)))))))) =
      (branch, some upstream, digitsValue dx, digitsValue dy) ∧
    parse_branch_header ("## ".data ++ (branch ++ ("...".data ++ upstream))) =
      (branch, some upstream, 0, 0) ∧
    parse_branch_header ("## ".data ++ branch) = (branch, none, 0, 0) := by
  obtain ⟨c, bt, hbeq, hcw⟩ :=
    exists_head_not_ws (trimStart_eq_of_trim hbr) hbrne
  refine ⟨?_, ?_, ?_⟩
  · obtain ⟨Ly, ey, hyeq, heyd⟩ := digits_concat hdy hdyne
    have hstrip := stripPfx_append "## ".data
      (branch ++ ("...".data ++ (upstream ++ (" [ahead ".data ++
        (dx ++ (", behind ".data ++ (dy ++ "]".data)))))))
    have hH1 : branch ++ ("...".data ++ (upstream ++ (" [ahead ".data ++
        (dx ++ (", behind ".data ++ (dy ++ "]".data)))))) =
        c :: (bt ++ ("...".data ++ (upstream ++ (" [ahead ".data ++
        (dx ++ (", behind ".data ++ (dy ++ "]".data))))))) := by
      simp [hbeq]
    have hH2 : branch ++ ("...".data ++ (upstream ++ (" [ahead ".data ++
        (dx ++ (", behind ".data ++ (dy ++ "]".data)))))) =
        (branch ++ ("...".data ++ (upstream ++ (" [ahead ".data ++
        (dx ++ (", behind ".data ++ dy)))))) ++ [']'] := by
      simp [show ("]".data : Str) = [']'] from rfl, List.append_assoc]
    have htrimH : trim (branch ++ ("...".data ++ (upstream ++
        (" [ahead ".data ++ (dx ++ (", behind ".data ++ (dy ++ "]".data))))))) =
        branch ++ ("...".data ++ (upstream ++ (" [ahead ".data ++
        (dx ++ (", behind ".data ++ (dy ++ "]".data)))))) :=
      trim_eq_self_of_ends _ _ _ _ _ hH1 hH2 hcw (by decide)
    have hs1 : splitOnce "...".data (branch ++ ("...".data ++ (upstream ++
        (" [ahead ".data ++ (dx ++ (", behind ".data ++ (dy ++ "]".data))))))) =
        some (branch, upstream ++ (" [ahead ".data ++
          (dx ++ (", behind ".data ++ (dy ++ "]".data))))) :=
      splitOnce_first _ _ _ hA1
    have hview : (upstream ++ (" [ahead ".data ++ (dx ++ (", behind ".data ++
        (dy ++ "]".data)))) : Str) =
        upstream ++ (" [".data ++ ("ahead ".data ++ (dx ++ (", behind ".data ++
        (dy ++ "]".data))))) := by
      rw [show (" [ahead ".data : Str) = " [".data ++ "ahead ".data from rfl,
        List.append_assoc]
    have hs2 : splitOnce " [".data (upstream ++ (" [ahead ".data ++
        (dx ++ (", behind ".data ++ (dy ++ "]".data))))) =
        some (upstream, "ahead ".data ++ (dx ++ (", behind ".data ++
          (dy ++ "]".data)))) := by
      rw [hview]
      exact splitOnce_first _ _ _ (hview ▸ hA2)
    have hTview : ("ahead ".data ++ (dx ++ (", behind ".data ++
        (dy ++ "]".data))) : Str) =
        (("ahead ".data ++ (dx ++ (", behind ".data ++ Ly))) ++ [ey]) ++ [']'] := by
      simp [hyeq, show ("]".data : Str) = [']'] from rfl, List.append_assoc]
    have htm : trimEndMatches ']' ("ahead ".data ++ (dx ++ (", behind ".data ++
        (dy ++ "]".data)))) =
        ("ahead ".data ++ (dx ++ (", behind ".data ++ Ly))) ++ [ey] := by
      rw [hTview]
      exact trimEndMatches_concat _ (digit_ne heyd (by decide))
    have htc : trim (("ahead ".data ++ (dx ++ (", behind ".data ++ Ly))) ++
        [ey]) = ("ahead ".data ++ (dx ++ (", behind ".data ++ Ly))) ++ [ey] :=
      trim_eq_self_of_ends 'a' ey _ _ _ rfl rfl (by decide)
        (digit_not_ws heyd)
    have hmem1 : (',') ∉ ("ahead ".data ++ dx) := by
      intro hm
      rcases List.mem_append.mp hm with h1 | h1
      · exact absurd h1 (by decide)
      · exact absurd (digit_of_mem_all hdx h1) (by decide)
    have hmem2 : (',') ∉ (" behind ".data ++ dy) := by
      intro hm
      rcases List.mem_append.mp hm with h1 | h1
      · exact absurd h1 (by decide)
      · exact absurd (digit_of_mem_all hdy h1) (by decide)
    have hsc : splitChar ',' (("ahead ".data ++ (dx ++ (", behind ".data ++
        Ly))) ++ [ey]) = ["ahead ".data ++ dx, " behind ".data ++ dy] := by
      rw [show ((("ahead ".data ++ (dx ++ (", behind ".data ++ Ly))) ++ [ey]) :
          Str) = ("ahead ".data ++ dx) ++ (',' :: (" behind ".data ++ dy))
        from by
          simp [hyeq, show (", behind ".data : Str) = ',' :: " behind ".data
            from rfl, List.append_assoc],
        splitChar_sep ',' _ _ hmem1, splitChar_not_mem ',' _ hmem2]
    have hfold : (["ahead ".data ++ dx, " behind ".data ++ dy].foldl
        applyTrackingPiece (0, 0)) = (digitsValue dx, digitsValue dy) := by
      rw [List.foldl_cons, applyTrackingPiece_ahead 0 0 dx hdx hdxne hbx,
        List.foldl_cons,
        applyTrackingPiece_behind (digitsValue dx) 0 dy hdy hdyne hby,
        List.foldl_nil]
    simp only [parse_branch_header, hstrip, Option.getD_some, htrimH, hs1, hs2]
    rw [hbr, hup, if_neg hupne, htm, htc, hsc, hfold]
  · obtain ⟨up2, ulast, hueq, hulw⟩ :=
      exists_last_not_ws (trimEnd_eq_of_trim hup) hupne
    have hstrip := stripPfx_append "## ".data
      (branch ++ ("...".data ++ upstream))
    have hH1 : branch ++ ("...".data ++ upstream) =
        c :: (bt ++ ("...".data ++ upstream)) := by
      simp [hbeq]
    have hH2 : branch ++ ("...".data ++ upstream) =
        (branch ++ ("...".data ++ up2)) ++ [ulast] := by
      simp [hueq, List.append_assoc]
    have htrimH : trim (branch ++ ("...".data ++ upstream)) =
        branch ++ ("...".data ++ upstream) :=
      trim_eq_self_of_ends _ _ _ _ _ hH1 hH2 hcw hulw
    have hs1 : splitOnce "...".data (branch ++ ("...".data ++ upstream)) =
        some (branch, upstream) := splitOnce_first _ _ _ hB1
    have hs2 : splitOnce " [".data upstream = none :=
      splitOnce_eq_none _ _ (by decide) hB2
    simp only [parse_branch_header, hstrip, Option.getD_some, htrimH, hs1, hs2]
    rw [hbr, hup, if_neg hupne]
  · have hstrip := stripPfx_append "## ".data branch
    have hs1 : splitOnce "...".data branch = none :=
      splitOnce_eq_none _ _ (by decide) hC1
    have hs2 : splitOnce " [".data branch = none :=
      splitOnce_eq_none _ _ (by decide) hC2
    simp only [parse_branch_header, hstrip, Option.getD_some, hbr, hs1, hs2]

/-- C8 witness: the three header forms at concrete strings. -/
theorem parse_branch_header_spec_witness :
    parse_branch_header "## main...origin/main [ahead 2, behind 3]".data =
      ("main".data, some "origin/main".data, 2, 3) ∧
    parse_branch_header "## main...origin/main".data =
      ("main".data, some "origin/main".data, 0, 0) ∧
    parse_branch_header "## main".data = ("main".data, none, 0, 0) := by
  have h := parse_branch_header_spec "main".data "origin/main".data
    "2".data "3".data rfl (by decide) rfl (by decide) rfl (by decide)
    rfl (by decide) (by decide) (by decide) (by decide) (by decide)
    (by decide) (by decide) (by decide) (by decide)
  refine ⟨?_, ?_, ?_⟩
  · have h1 := h.1
    rw [show ("## main...origin/main [ahead 2, behind 3]".data : Str) =
      "## ".data ++ ("main".data ++ ("...".data ++ ("origin/main".data ++
        (" [ahead ".data ++ ("2".data ++ (", behind ".data ++
        ("3".data ++ "]".data))))))) from rfl, h1]
    rfl
  · have h2 := h.2.1
    rw [show ("## main...origin/main".data : Str) =
      "## ".data ++ ("main".data ++ ("...".data ++ "origin/main".data))
      from rfl, h2]
  · have h3 := h.2.2
    rw [show ("## main".data : Str) = "## ".data ++ "main".data from rfl, h3]



end SuperVibing
